import Mathlib

/-!
# PathGlyph motion-planning core: a shallow embedding

This file embeds the planning core of the PathGlyph repository
(`src/maze/maze.{h,cpp}`, `src/maze/obstacle.{h,cpp}`, `src/core/simulation.{h,cpp}`,
`src/common/types.h`) in Lean 4 and proves properties of it.

Modelling conventions:

* `Point` in `common/types.h` stores `double` coordinates.  Machine doubles are
  rational numbers, and every field operation (`+`, `-`, `*`, comparison) the
  discrete editor/planner layer performs is exact on rationals, so that layer is
  embedded over `ℚ` and is fully executable.  The continuous simulation layer
  (DWA scoring, agent integration) divides by Euclidean norms and calls
  `exp`/`cos`/`sin`, so it is embedded over `ℝ` with `Real.sqrt`, `Real.exp`,
  `Real.cos`, `Real.sin` as the idealized semantics of the C `double` math
  library.
* A comparison `dist < r` where `dist = sqrt d2` with `d2 ≥ 0` is embedded in
  the executable layer as `0 < r ∧ d2 < r^2`, which is equivalent over the
  reals; this keeps the geometric predicates decidable.
* `static_cast<int>` on a floating value truncates toward zero; `std::round`
  rounds half away from zero.  Both are modelled explicitly.
-/

namespace PathGlyph

/-- A 2‑D point with rational coordinates; embeds `PathGlyph::Point` of
`common/types.h` (double x, y). -/
structure PointQ where
  x : ℚ
  y : ℚ
deriving DecidableEq, Repr

/-- `static_cast<int>` of a C++ double: truncation toward zero. -/
def truncQ (q : ℚ) : ℤ :=
  if 0 ≤ q then ⌊q⌋ else ⌈q⌉

/-- `std::round` of a C++ double: rounding half away from zero
(`Point::toInt` in `common/types.h`). -/
def roundC (q : ℚ) : ℤ :=
  if 0 ≤ q then ⌊q + 1/2⌋ else -⌊-q + 1/2⌋

/-- Movement type of a dynamic obstacle (`MovementType` in `common/types.h`). -/
inductive MovementType where
  | LINEAR
  | CIRCULAR
deriving DecidableEq, Repr

/-- `SimulationState` of `common/types.h`. -/
inductive SimulationState where
  | IDLE
  | RUNNING
  | FINISHED
deriving DecidableEq, Repr

/-- A static obstacle as stored in `Maze::obstacles_`: a world-space position
(the `y`/height component of the C++ `glm::vec3` is always `0` and is dropped)
and a collision radius (`Obstacle` in `maze/obstacle.h`, static constructor). -/
structure ObstacleQ where
  pos : PointQ
  radius : ℚ
deriving DecidableEq, Repr

/-- A linearly moving dynamic obstacle as stored in `Maze::dynamicObstacles_`
and updated by the inline `Obstacle::updateLinearMovement` of
`maze/obstacle.h` (lines 157–181).  The circular variant is not modelled in
the executable layer because its update evaluates `cos`/`sin`; no claim
depends on circular maze motion. -/
structure ObstacleLin where
  pos : PointQ
  dir : PointQ
  speed : ℚ
  radius : ℚ
deriving DecidableEq, Repr

/-- `Obstacle::updateLinearMovement` from `maze/obstacle.h`:
`newPosition = position + direction * speed * dt`; each axis whose new
coordinate falls outside the HARD-CODED `[0, 50)` range has its direction
component negated, and if any axis was flipped the position is advanced from
the old position with the corrected direction, otherwise the position becomes
`newPosition`. -/
def linUpdateH (o : ObstacleLin) (dt : ℚ) : ObstacleLin :=
  let nx := o.pos.x + o.dir.x * o.speed * dt
  let ny := o.pos.y + o.dir.y * o.speed * dt
  let flipx := nx < 0 ∨ 50 ≤ nx
  let flipy := ny < 0 ∨ 50 ≤ ny
  if flipx ∨ flipy then
    let dx := if flipx then -o.dir.x else o.dir.x
    let dy := if flipy then -o.dir.y else o.dir.y
    { o with
      dir := ⟨dx, dy⟩,
      pos := ⟨o.pos.x + dx * o.speed * dt, o.pos.y + dy * o.speed * dt⟩ }
  else
    { o with pos := ⟨nx, ny⟩ }

/-- Iterate `linUpdateH` over a finite sequence of time steps
(successive `Maze::update(dt)` calls). -/
def linUpdateHSeq (o : ObstacleLin) (dts : List ℚ) : ObstacleLin :=
  dts.foldl linUpdateH o

/-- Clamp, as `glm::clamp` used by `Obstacle::sphereAABBIntersection`. -/
def clampQ (v lo hi : ℚ) : ℚ :=
  max lo (min v hi)

/-- `Obstacle::sphereAABBIntersection` of `maze/obstacle.h` restricted to the
ground plane: the closest point of the (2‑D projection of the) box to the
sphere center, compared against the radius.  The C++ compares
`length(closest - center) < radius`; over the reals this is equivalent to
`0 < radius ∧ squaredDist < radius^2`, which is how it is embedded to keep the
predicate decidable. -/
def sphereAABBIntersect (cx cy r minx miny maxx maxy : ℚ) : Prop :=
  let px := clampQ cx minx maxx
  let py := clampQ cy miny maxy
  0 < r ∧ (px - cx)^2 + (py - cy)^2 < r^2

instance (cx cy r minx miny maxx maxy : ℚ) :
    Decidable (sphereAABBIntersect cx cy r minx miny maxx maxy) := by
  unfold sphereAABBIntersect
  exact instDecidableAnd

/-- Modelled from the spec: `Tile::getBoundingBox` is referenced by
`Obstacle::intersects(int,int)` but the `Tile` class version defining
`BoundingBox`/`getWorldPosition`/`TILE_SIZE` is not under `src/` (the
`maze/tile.h` present is a renderer-era class without them).  The spec §4.1
defines the induced predicate: `isObstacle(cell)` is true iff an obstacle's
collision circle covers the cell center, so the tile box is modelled as the
degenerate box at the cell center `(x, y)` (with which the sphere/AABB test
reduces exactly to "circle covers the cell center"). -/
def tileBox (x y : ℤ) : PointQ × PointQ :=
  (⟨(x : ℚ), (y : ℚ)⟩, ⟨(x : ℚ), (y : ℚ)⟩)

/-- `Obstacle::intersects(int x, int y)` of `maze/obstacle.h`: sphere/AABB test
between the obstacle's collision sphere and the cell's tile box. -/
def obstacleCoversCell (pos : PointQ) (r : ℚ) (x y : ℤ) : Prop :=
  sphereAABBIntersect pos.x pos.y r
    (tileBox x y).1.x (tileBox x y).1.y (tileBox x y).2.x (tileBox x y).2.y

instance (pos : PointQ) (r : ℚ) (x y : ℤ) :
    Decidable (obstacleCoversCell pos r x y) := by
  unfold obstacleCoversCell
  infer_instance

/-- The full `Maze` state of `maze/maze.h` (rendering-only fields
`worldPath_` and the `obstacleProperties_` reset map are not modelled; no
claim mentions them). -/
structure MazeQ where
  width : ℤ
  height : ℤ
  start : PointQ
  goal : PointQ
  current : PointQ
  path : List PointQ
  obstacles : List ObstacleQ
  dynObstacles : List ObstacleLin
deriving DecidableEq, Repr

/-- The `Maze(int width, int height)` constructor: start `(0,0)`,
goal `(width-1, height-1)`, current `(0,0)`, everything else empty. -/
def mkMazeQ (w h : ℤ) : MazeQ :=
  { width := w, height := h,
    start := ⟨0, 0⟩, goal := ⟨(w - 1 : ℤ), (h - 1 : ℤ)⟩, current := ⟨0, 0⟩,
    path := [], obstacles := [], dynObstacles := [] }

/-- `Maze::isValid(int x, int y)`. -/
def isValidZ (m : MazeQ) (x y : ℤ) : Prop :=
  0 ≤ x ∧ x < m.width ∧ 0 ≤ y ∧ y < m.height

instance (m : MazeQ) (x y : ℤ) : Decidable (isValidZ m x y) := by
  unfold isValidZ; infer_instance

/-- `Maze::isObstacle(int x, int y)`: some static or dynamic obstacle's
collision circle intersects the cell's tile box. -/
def isObstacleCell (m : MazeQ) (x y : ℤ) : Prop :=
  (∃ o ∈ m.obstacles, obstacleCoversCell o.pos o.radius x y) ∨
  (∃ o ∈ m.dynObstacles, obstacleCoversCell o.pos o.radius x y)

instance (m : MazeQ) (x y : ℤ) : Decidable (isObstacleCell m x y) := by
  unfold isObstacleCell
  have h1 : Decidable (∃ o ∈ m.obstacles, obstacleCoversCell o.pos o.radius x y) :=
    List.decidableBEx _ m.obstacles
  have h2 : Decidable (∃ o ∈ m.dynObstacles, obstacleCoversCell o.pos o.radius x y) :=
    List.decidableBEx _ m.dynObstacles
  exact @instDecidableOr _ _ h1 h2

/-- `Maze::isSafe(int x, int y)`. -/
def isSafeZ (m : MazeQ) (x y : ℤ) : Prop :=
  ¬ isObstacleCell m x y

instance (m : MazeQ) (x y : ℤ) : Decidable (isSafeZ m x y) := by
  unfold isSafeZ; infer_instance

/-- `Maze::checkCollision(const Point&, float radius = 0.5)` specialised to a
grid cell (the only way the DWA rollout calls it, after truncating the rollout
position).  For each obstacle the C++ tests
`distance(position, point) < radius_ + agentRadius`, embedded via the
squared-distance equivalence. -/
def checkCollisionCell (m : MazeQ) (x y : ℤ) (agentRadius : ℚ := 1/2) : Prop :=
  (∃ o ∈ m.obstacles,
      0 < o.radius + agentRadius ∧
      (o.pos.x - x)^2 + (o.pos.y - y)^2 < (o.radius + agentRadius)^2) ∨
  (∃ o ∈ m.dynObstacles,
      0 < o.radius + agentRadius ∧
      (o.pos.x - x)^2 + (o.pos.y - y)^2 < (o.radius + agentRadius)^2)

instance (m : MazeQ) (x y : ℤ) (r : ℚ) : Decidable (checkCollisionCell m x y r) := by
  unfold checkCollisionCell
  have h1 : Decidable (∃ o ∈ m.obstacles,
      0 < o.radius + r ∧ (o.pos.x - x)^2 + (o.pos.y - y)^2 < (o.radius + r)^2) :=
    List.decidableBEx _ m.obstacles
  have h2 : Decidable (∃ o ∈ m.dynObstacles,
      0 < o.radius + r ∧ (o.pos.x - x)^2 + (o.pos.y - y)^2 < (o.radius + r)^2) :=
    List.decidableBEx _ m.dynObstacles
  exact @instDecidableOr _ _ h1 h2

/-- `Maze::setStart(int x, int y)` (maze.cpp 99–105): accepted only when the
cell is valid and not an obstacle; then start and current move there and the
path is cleared; otherwise nothing happens. -/
def setStartQ (m : MazeQ) (x y : ℤ) : MazeQ :=
  if isValidZ m x y ∧ ¬ isObstacleCell m x y then
    { m with start := ⟨(x : ℚ), (y : ℚ)⟩, current := ⟨(x : ℚ), (y : ℚ)⟩, path := [] }
  else m

/-- `Maze::setGoal(int x, int y)` (maze.cpp 107–112). -/
def setGoalQ (m : MazeQ) (x y : ℤ) : MazeQ :=
  if isValidZ m x y ∧ ¬ isObstacleCell m x y then
    { m with goal := ⟨(x : ℚ), (y : ℚ)⟩, path := [] }
  else m

/-- `Maze::clearStart()` (maze.h 49): start becomes the sentinel `(-1,-1)`. -/
def clearStartQ (m : MazeQ) : MazeQ :=
  { m with start := ⟨-1, -1⟩ }

/-- `Maze::setPath` (maze.cpp 114–117; the world-coordinate mirror is not
modelled). -/
def setPathQ (m : MazeQ) (p : List PointQ) : MazeQ :=
  { m with path := p }

/-- `Maze::clearPath()` (maze.h 79). -/
def clearPathQ (m : MazeQ) : MazeQ :=
  { m with path := [] }

/-- `Maze::addObstacle(int x, int y)` (maze.cpp 512–521): guarded by
`isValid && !isObstacle`, appends a static obstacle of radius 1 at the cell;
it does NOT touch the stored path. -/
def addObstacleQ (m : MazeQ) (x y : ℤ) : MazeQ :=
  if isValidZ m x y ∧ ¬ isObstacleCell m x y then
    { m with obstacles := m.obstacles ++ [⟨⟨(x : ℚ), (y : ℚ)⟩, 1⟩] }
  else m

/-- `Maze::addObstacle(double x, double y, double radius)` (maze.cpp 523–526):
unconditionally appends a static obstacle. -/
def addObstacleD (m : MazeQ) (x y r : ℚ) : MazeQ :=
  { m with obstacles := m.obstacles ++ [⟨⟨x, y⟩, r⟩] }

/-- `Maze::removeObstacle(int x, int y)` (maze.cpp 565–589): erases every
static and dynamic obstacle intersecting the cell; the stored path is not
touched. -/
def removeObstacleQ (m : MazeQ) (x y : ℤ) : MazeQ :=
  { m with
    obstacles := m.obstacles.filter (fun o => ¬ obstacleCoversCell o.pos o.radius x y),
    dynObstacles := m.dynObstacles.filter (fun o => ¬ obstacleCoversCell o.pos o.radius x y) }

/-- `Maze::update(float deltaTime)` (maze.cpp 395–400): advances every dynamic
obstacle; nothing else — in particular the stored path is not revalidated or
cleared. -/
def mazeUpdateQ (m : MazeQ) (dt : ℚ) : MazeQ :=
  { m with dynObstacles := m.dynObstacles.map (fun o => linUpdateH o dt) }

/-! ## The A* search (`Maze::findPathAStar`, maze.cpp 146–220)

The C++ open set is `std::priority_queue<AStarNode*, std::vector<AStarNode*>,
std::greater<AStarNode*>>`: the comparator compares RAW POINTERS, so the pop
order depends on heap addresses and is unspecified.  The embedding therefore
takes an arbitrary pop `policy`; every theorem about the search quantifies
over it.  Node `f = g + h` values never influence control flow (the goal test
and neighbor expansion do not read them), so the irrational heuristic
`h = sqrt(dx^2+dy^2)` is recorded by its square `hsq` to keep the search
executable.  An out-of-range access to the `visited` matrix (C++ undefined
behavior) is modelled by the search returning `none`. -/

/-- One A* node (`AStarNode` in maze.h): cell, cost from start, squared
heuristic, and the parent as an index into the allocation list. -/
structure ANode where
  x : ℤ
  y : ℤ
  g : ℚ
  hsq : ℚ
  parent : Option ℕ
deriving DecidableEq, Repr

/-- The squared Euclidean heuristic of `Maze::heuristic` (the C++ stores its
square root, which no control flow ever reads). -/
def hsqQ (x y : ℤ) (goal : PointQ) : ℚ :=
  ((x : ℚ) - goal.x)^2 + ((y : ℚ) - goal.y)^2

/-- The 8 neighbor directions with their move costs, in the C++ array order
(`dx[] = {-1,-1,0,1,1,1,0,-1}`, `dy[] = {0,1,1,1,0,-1,-1,-1}`, cost 1.0 for
even indices and 1.414 for odd ones). -/
def astarDirs : List (ℤ × ℤ × ℚ) :=
  [(-1, 0, 1), (-1, 1, 1414/1000), (0, 1, 1), (1, 1, 1414/1000),
   (1, 0, 1), (1, -1, 1414/1000), (0, -1, 1), (-1, -1, 1414/1000)]

/-- Read `visited[x][y]`; `none` models an out-of-range access. -/
def vget (v : List (List Bool)) (x y : ℤ) : Option Bool :=
  if x < 0 ∨ y < 0 then none
  else match v.get? x.toNat with
    | none => none
    | some row => row.get? y.toNat

/-- Write `visited[x][y] = b`; `none` models an out-of-range access. -/
def vset (v : List (List Bool)) (x y : ℤ) (b : Bool) : Option (List (List Bool)) :=
  if x < 0 ∨ y < 0 then none
  else match v.get? x.toNat with
    | none => none
    | some row =>
      if y.toNat < row.length then some (v.set x.toNat (row.set y.toNat b))
      else none

/-- `vector<vector<bool>> visited(width, vector<bool>(height, false))`. -/
def mkVisited (w h : ℤ) : List (List Bool) :=
  List.replicate w.toNat (List.replicate h.toNat false)

/-- Path reconstruction (`Maze::reconstructPath`): follow parent indices,
building the start→goal list.  `fuel` dominates the parent-chain length. -/
def recon (nodes : List ANode) (i : ℕ) : ℕ → List PointQ
  | 0 => []
  | fuel + 1 =>
    match nodes.get? i with
    | none => []
    | some n =>
      match n.parent with
      | none => [⟨(n.x : ℚ), (n.y : ℚ)⟩]
      | some p => recon nodes p fuel ++ [⟨(n.x : ℚ), (n.y : ℚ)⟩]

/-- Intermediate state of one neighbor-expansion sweep. -/
structure AState where
  nodes : List ANode
  opens : List ℕ
  vis : List (List Bool)
deriving Repr

/-- The neighbor loop body of `findPathAStar` (maze.cpp 187–206): for each of
the 8 directions, if the cell is valid, safe and unvisited (`visited` is read
only after `isValid` passes, mirroring the C++ short-circuit), allocate a
child node, push its index and mark it visited. -/
def expand (m : MazeQ) (cur : ANode) (ci : ℕ) :
    List (ℤ × ℤ × ℚ) → AState → Option AState
  | [], st => some st
  | (dx, dy, c) :: rest, st =>
    let nx := cur.x + dx
    let ny := cur.y + dy
    if isValidZ m nx ny ∧ isSafeZ m nx ny then
      match vget st.vis nx ny with
      | none => none
      | some true => expand m cur ci rest st
      | some false =>
        match vset st.vis nx ny true with
        | none => none
        | some vis1 =>
          expand m cur ci rest
            { nodes := st.nodes ++ [⟨nx, ny, cur.g + c, hsqQ nx ny m.goal, some ci⟩],
              opens := st.opens ++ [st.nodes.length],
              vis := vis1 }
    else expand m cur ci rest st

/-- The main loop of `findPathAStar`.  `policy step` chooses which open-set
entry the (pointer-ordered, hence unspecified) priority queue pops at step
`step`.  Returns `some path` like the C++ (empty on exhaustion — and on fuel
exhaustion, which the C++ loop, being finite, never reaches), or `none` when
an out-of-range `visited` access occurs. -/
def astarLoop (m : MazeQ) (policy : ℕ → ℕ) :
    AState → ℕ → ℕ → Option (List PointQ)
  | _, _, 0 => some []
  | st, step, fuel + 1 =>
    match st.opens with
    | [] => some []
    | _ :: _ =>
      let k := policy step % st.opens.length
      let ci := st.opens.getD k 0
      let rest := st.opens.eraseIdx k
      match st.nodes.get? ci with
      | none => none
      | some cur =>
        if ((cur.x : ℚ) = m.goal.x ∧ (cur.y : ℚ) = m.goal.y) then
          some (recon st.nodes ci (st.nodes.length + 1))
        else
          match vset st.vis cur.x cur.y true with
          | none => none
          | some vis1 =>
            match expand m cur ci astarDirs { nodes := st.nodes, opens := rest, vis := vis1 } with
            | none => none
            | some st1 => astarLoop m policy st1 (step + 1) fuel

/-- `Maze::findPathAStar` (maze.cpp 146–220): clears the path, seeds the open
set with the start node (`AStarNode(start_.x, start_.y, ...)`, the double→int
conversion truncating toward zero), and runs the main loop. -/
def findAStarRun (m : MazeQ) (policy : ℕ → ℕ) (fuel : ℕ) : Option (List PointQ) :=
  let sx := truncQ m.start.x
  let sy := truncQ m.start.y
  astarLoop m policy
    { nodes := [⟨sx, sy, 0, hsqQ sx sy m.goal, none⟩],
      opens := [0],
      vis := mkVisited m.width m.height } 0 fuel

/-! ## The pointer-ordered open set (claim C1)

`AStarNode::operator>` (maze.h 25–27) compares `f` values, but the queue is
instantiated at `AStarNode*` with `std::greater<AStarNode*>`, which compares
the pointers themselves: `top()` is the node with the SMALLEST address.  The
model tags each node with its address. -/

/-- `AStarNode::operator>`: `f > other.f` (here `f` is carried directly). -/
def astarNodeGt (f1 f2 : ℚ) : Prop := f1 > f2

instance (f1 f2 : ℚ) : Decidable (astarNodeGt f1 f2) := by
  unfold astarNodeGt; infer_instance

/-- `top()` of `std::priority_queue<AStarNode*, ..., std::greater<AStarNode*>>`:
the entry whose ADDRESS (first component) is minimal — the `f` value (second
component) is ignored by the comparator. -/
def ptrQueueTop (q : List (ℕ × ℚ)) : Option (ℕ × ℚ) :=
  q.foldl
    (fun acc e =>
      match acc with
      | none => some e
      | some b => if e.1 < b.1 then some e else some b)
    none

/-! ## Concrete states used by counterexamples and witnesses -/

/-- A 2×2 maze whose stored path is `[(0,0),(1,1)]` (set through
`Maze::setPath`). -/
def mazeC3 : MazeQ := setPathQ (mkMazeQ 2 2) [⟨0, 0⟩, ⟨1, 1⟩]

/-- A linear obstacle at `(9.5, 5)` heading `(1,0)` with speed 3 — in bounds
of a 10×10 grid. -/
def obC4 : ObstacleLin := ⟨⟨19/2, 5⟩, ⟨1, 0⟩, 3, 1⟩

/-- A 10×10 maze containing `obC4` as its only dynamic obstacle. -/
def mazeC4 : MazeQ := { mkMazeQ 10 10 with dynObstacles := [obC4] }

/-- A linear obstacle at `(1,1)` heading `(1,0)` with speed 3 (witness data). -/
def obW4 : ObstacleLin := ⟨⟨1, 1⟩, ⟨1, 0⟩, 3, 1⟩

/-- A 2×2 maze where the goal has been moved onto the start cell `(0,0)` and a
radius‑1 obstacle has then been dropped exactly there through the unchecked
`addObstacle(double,double,double)` overload — a state reachable through the
public editor surface in which the start cell is blocked. -/
def mazeC6 : MazeQ := addObstacleD (setGoalQ (mkMazeQ 2 2) 0 0) 0 0 1

/-- The safety statement for one path point: its cell (coordinates truncated
back to the grid, the identity on the integer-valued points A* produces) is
not an obstacle. -/
def safeCellP (m : MazeQ) (c : PointQ) : Prop :=
  isSafeZ m (truncQ c.x) (truncQ c.y)

instance (m : MazeQ) (c : PointQ) : Decidable (safeCellP m c) := by
  unfold safeCellP; infer_instance

/-- Invariant of the A* allocation list: every node other than the root
(parent `none`) was created in the neighbor loop, which checks `isSafe`. -/
def safeNodes (m : MazeQ) (nodes : List ANode) : Prop :=
  ∀ n ∈ nodes, n.parent ≠ none → isSafeZ m n.x n.y

/-- Well-formedness of the `visited` matrix: `width` rows of `height` cells. -/
def visDims (m : MazeQ) (vis : List (List Bool)) : Prop :=
  vis.length = m.width.toNat ∧ ∀ row ∈ vis, row.length = m.height.toNat

/-- Invariant of the search state: all nodes lie on valid cells and all open
indices point into the allocation list. -/
def stateOk (m : MazeQ) (st : AState) : Prop :=
  visDims m st.vis ∧ (∀ n ∈ st.nodes, isValidZ m n.x n.y) ∧
    (∀ i ∈ st.opens, i < st.nodes.length)

/-! ## The DWA local planner (`Maze::findBestLocalVelocity` and helpers,
maze.cpp 223–393)

The scoring layer divides by Euclidean norms and evaluates `exp`/`cos`/`sin`,
so it is embedded over `ℝ` (the idealized semantics of the double math
library).  The random sampler draws from `uniform(0, maxSpeed)` and
`uniform(-maxRotSpeed, maxRotSpeed)`; the embedding abstracts the RNG stream
as a list of 20 `(speed, angleChange)` draws, with `validDraws` capturing the
distributions' supports. -/

/-- `Obstacle::getGridPosition`: truncate the continuous position to a cell. -/
def gridPosQ (p : PointQ) : ℤ × ℤ :=
  (truncQ p.x, truncQ p.y)

noncomputable section

open scoped Classical

/-- `static_cast<int>` of a C++ double over `ℝ`: truncation toward zero. -/
def truncR (r : ℝ) : ℤ :=
  if 0 ≤ r then ⌊r⌋ else ⌈r⌉

/-- `Vector2D::length` / `glm::length`. -/
def vecNorm (v : ℝ × ℝ) : ℝ :=
  Real.sqrt (v.1 ^ 2 + v.2 ^ 2)

/-- `Vector2D::normalize`: the zero vector for lengths below `0.0001`. -/
def vecNormalize (v : ℝ × ℝ) : ℝ × ℝ :=
  if vecNorm v < 1/10000 then (0, 0) else (v.1 / vecNorm v, v.2 / vecNorm v)

/-- `Point::distanceTo`. -/
def distR (p q : ℝ × ℝ) : ℝ :=
  Real.sqrt ((p.1 - q.1) ^ 2 + (p.2 - q.2) ^ 2)

/-- `std::atan2`. -/
def atan2R (y x : ℝ) : ℝ :=
  if 0 < x then Real.arctan (y / x)
  else if x < 0 then
    (if 0 ≤ y then Real.arctan (y / x) + Real.pi else Real.arctan (y / x) - Real.pi)
  else
    (if 0 < y then Real.pi / 2 else if y < 0 then -(Real.pi / 2) else 0)

/-- `FLT_MAX`, exactly: `(2 - 2^-23) * 2^127 = 2^128 - 2^104`. -/
def fltMax : ℝ :=
  2 ^ 128 - 2 ^ 104

/-- The rollout loop of `Maze::evaluateTrajectory` (maze.cpp 293–304): step
the continuous position by `velocity * dt`, truncate to a cell, record it,
and stop right after the first out-of-bounds or colliding cell. -/
def rollout (m : MazeQ) (v : ℝ × ℝ) (x y dt : ℝ) : ℕ → List (ℤ × ℤ)
  | 0 => []
  | steps + 1 =>
    let x1 := x + v.1 * dt
    let y1 := y + v.2 * dt
    let p := (truncR x1, truncR y1)
    if ¬ isValidZ m p.1 p.2 ∨ checkCollisionCell m p.1 p.2 (1/2) then [p]
    else p :: rollout m v x1 y1 dt steps

/-- The minimum grid distance from a trajectory cell to any obstacle's grid
position (the two accumulation loops of `calculateObstacleAvoidanceScore`,
starting from `FLT_MAX`). -/
def minObstDist (m : MazeQ) (c : ℤ × ℤ) : ℝ :=
  let f := fun (md : ℝ) (op : ℤ × ℤ) =>
    min md (distR ((c.1 : ℝ), (c.2 : ℝ)) ((op.1 : ℝ), (op.2 : ℝ)))
  (m.dynObstacles.map (fun o => gridPosQ o.pos)).foldl f
    ((m.obstacles.map (fun o => gridPosQ o.pos)).foldl f fltMax)

/-- The per-point loop of `Maze::calculateObstacleAvoidanceScore`
(maze.cpp 326–358): an out-of-bounds or colliding point returns `0.1`
immediately; otherwise a point closer than 2 to an obstacle lowers the score
to `min score (minDistance/2)`. -/
def obstacleScoreGo (m : MazeQ) : ℝ → List (ℤ × ℤ) → ℝ
  | score, [] => score
  | score, c :: rest =>
    if ¬ isValidZ m c.1 c.2 then 1/10
    else if checkCollisionCell m c.1 c.2 (1/2) then 1/10
    else
      let md := minObstDist m c
      obstacleScoreGo m (if md < 2 then min score (md / 2) else score) rest

/-- `Maze::calculateObstacleAvoidanceScore` (maze.cpp 317–361): `0` for an
empty trajectory, otherwise the loop starting from score `1`. -/
def calculateObstacleAvoidanceScore (m : MazeQ) (traj : List (ℤ × ℤ)) : ℝ :=
  if traj = [] then 0 else obstacleScoreGo m 1 traj

/-- `Maze::calculateGoalDirectionScore` (maze.cpp 363–384). -/
def calculateGoalDirectionScore (v currentPos target : ℝ × ℝ) : ℝ :=
  if vecNorm v < 1/1000 then 1/2
  else
    let toGoal := (target.1 - currentPos.1, target.2 - currentPos.2)
    if vecNorm toGoal < 1/1000 then 1
    else
      let nv := vecNormalize v
      let ng := vecNormalize toGoal
      (nv.1 * ng.1 + nv.2 * ng.2 + 1) / 2

/-- `Maze::calculateGoalDistanceScore` (maze.cpp 386–393). -/
def calculateGoalDistanceScore (endPos target : ℝ × ℝ) : ℝ :=
  Real.exp (-(distR endPos target) / 10)

/-- `Maze::evaluateTrajectory` (maze.cpp 283–315): 10 rollout steps over the
prediction horizon; weighted sum `0.5 * obstacle + 0.3 * direction +
0.2 * distance`, the endpoint being the trajectory's last cell (or the
current position for an empty trajectory). -/
def evaluateTrajectory (m : MazeQ) (v currentPos target : ℝ × ℝ)
    (predictTime : ℝ) : ℝ :=
  let traj := rollout m v currentPos.1 currentPos.2 (predictTime / 10) 10
  let obstacleScore := calculateObstacleAvoidanceScore m traj
  let directionScore := calculateGoalDirectionScore v currentPos target
  let endPos : ℝ × ℝ :=
    match traj.getLast? with
    | none => currentPos
    | some c => ((c.1 : ℝ), (c.2 : ℝ))
  let distanceScore := calculateGoalDistanceScore endPos target
  (1/2) * obstacleScore + (3/10) * directionScore + (1/5) * distanceScore

/-- `Maze::generateVelocitySamples` (maze.cpp 248–281) with the RNG stream
made explicit: the current velocity first, then for each drawn
`(speed, angleChange)` the vector of magnitude `speed` at the current heading
(zero for near-zero current velocity) perturbed by `angleChange`. -/
def generateVelocitySamples (currentVel : ℝ × ℝ) (draws : List (ℝ × ℝ)) :
    List (ℝ × ℝ) :=
  currentVel ::
    draws.map (fun d =>
      let currentAngle :=
        if vecNorm currentVel > 1/1000 then atan2R currentVel.2 currentVel.1 else 0
      (d.1 * Real.cos (currentAngle + d.2), d.1 * Real.sin (currentAngle + d.2)))

/-- The support of the sampling distributions: speeds drawn from
`uniform(0, maxSpeed)`, angle changes from `uniform(-maxRot, maxRot)`. -/
def validDraws (draws : List (ℝ × ℝ)) (maxSpeed maxRot : ℝ) : Prop :=
  ∀ d ∈ draws, 0 ≤ d.1 ∧ d.1 ≤ maxSpeed ∧ -maxRot ≤ d.2 ∧ d.2 ≤ maxRot

/-- The selection loop of `findBestLocalVelocity` (maze.cpp 233–243):
strictly-greater score wins, so ties keep the earlier candidate. -/
def bestVelFold (m : MazeQ) (currentPos target : ℝ × ℝ) :
    (ℝ × ℝ) × ℝ → List (ℝ × ℝ) → (ℝ × ℝ) × ℝ
  | acc, [] => acc
  | acc, v :: rest =>
    let sc := evaluateTrajectory m v currentPos target 2
    if sc > acc.2 then bestVelFold m currentPos target (v, sc) rest
    else bestVelFold m currentPos target acc rest

/-- `Maze::findBestLocalVelocity` (maze.cpp 223–246): evaluate all samples
over the 2-second horizon, starting from `bestScore = -FLT_MAX` and
`bestVelocity = currentVel`.  `maxSpeed`/`maxRot` bound the RNG draws (see
`validDraws`); the C++ draws exactly 20 samples. -/
def findBestLocalVelocity (m : MazeQ) (currentPos currentVel target : ℝ × ℝ)
    (maxSpeed maxRot : ℝ) (draws : List (ℝ × ℝ)) : ℝ × ℝ :=
  (bestVelFold m currentPos target (currentVel, -fltMax)
    (generateVelocitySamples currentVel draws)).1

/-- The 50×50 default maze with one static obstacle at `(2.9, 2)` of radius
`0.1` (added through `addObstacle(double,double,double)`). -/
def mazeC2 : MazeQ :=
  addObstacleD (mkMazeQ 50 50) (29/10) 2 (1/10)

/-- A possible RNG stream of 20 draws: `(speed 5, perturbation 0)` then 19
zero-speed draws. -/
def drawsC2 : List (ℝ × ℝ) :=
  ((5 : ℝ), (0 : ℝ)) :: List.replicate 19 ((0 : ℝ), (2 : ℝ))

/-! ## The header `Obstacle` full record and the simulation layer
(`maze/obstacle.h`, `core/simulation.{h,cpp}`) -/

/-- The unified `Obstacle` class of `maze/obstacle.h` with all its fields (the
continuous ones over `ℝ`; the `glm::vec3` height components are always `0` and
are dropped). -/
structure ObstacleH where
  mt : MovementType
  position : ℝ × ℝ
  initialPosition : ℝ × ℝ
  center : ℝ × ℝ
  orbitRadius : ℝ
  radius : ℝ
  speed : ℝ
  angularSpeed : ℝ
  angle : ℝ
  direction : ℝ × ℝ
  isDynamic : Bool

/-- The dynamic-obstacle constructor `Obstacle(double x, double y,
MovementType)`: records the initial position; field defaults as in the class
(`radius 1`, `speed 3`, `angularSpeed 1`, `angle 0`; the uninitialized
`glm::vec3` members are modelled as zero). -/
def mkDynObstacleH (x y : ℝ) (t : MovementType) : ObstacleH :=
  { mt := t, position := (x, y), initialPosition := (x, y), center := (0, 0),
    orbitRadius := 0, radius := 1, speed := 3, angularSpeed := 1, angle := 0,
    direction := (0, 0), isDynamic := true }

/-- `Obstacle::setCircularMovement` (obstacle.h 40–52): ignored for
non-circular obstacles; records center, orbit radius and angular speed, and
derives the CURRENT angle with `atan2`. -/
def setCircularMovementH (o : ObstacleH) (center : ℝ × ℝ)
    (radius angularSpeed : ℝ) : ObstacleH :=
  if o.mt ≠ MovementType.CIRCULAR then o
  else
    { o with
      center := center, orbitRadius := radius, angularSpeed := angularSpeed,
      angle := atan2R (o.position.2 - center.2) (o.position.1 - center.1) }

/-- `Obstacle::updatePosition` (obstacle.h 190–194): place the obstacle on its
orbit at the current angle. -/
def updatePositionH (o : ObstacleH) : ObstacleH :=
  { o with position := (o.center.1 + o.orbitRadius * Real.cos o.angle,
                        o.center.2 + o.orbitRadius * Real.sin o.angle) }

/-- `Obstacle::reset` (obstacle.h 104–112): restore `initialPosition`; for a
CIRCULAR obstacle additionally zero the angle and recompute the position from
it (overwriting the restored initial position). -/
def resetH (o : ObstacleH) : ObstacleH :=
  let o1 := { o with position := o.initialPosition }
  if o.mt = MovementType.CIRCULAR then updatePositionH { o1 with angle := 0 }
  else o1

/-- The `Simulation` fields `Simulation::reset` (simulation.cpp 32–51)
touches: state, time, agent velocity, traversed trace, the maze's stored
path, and the dynamic obstacles. -/
structure SimR where
  simSt : SimulationState
  time : ℝ
  velocity : ℝ × ℝ
  trace : List (ℝ × ℝ)
  pathR : List (ℝ × ℝ)
  obstaclesH : List ObstacleH

/-- `Simulation::reset`: state to IDLE (the transient FINISHED assignment on
lines 34–37 is immediately overwritten), time to 0, path and trace cleared,
velocity zeroed, obstacles reset.  Modelled from the spec: the call
`m_maze->reset()` (simulation.cpp 43) has no definition under `src/`
(`maze.h` declares only `resetObstacles`); spec §4.5 says reset restores
"obstacle initial poses", so it maps `Obstacle::reset` — which IS in `src/` —
over the dynamic obstacles. -/
def simResetR (s : SimR) : SimR :=
  { simSt := SimulationState.IDLE, time := 0, velocity := (0, 0), trace := [],
    pathR := [], obstaclesH := s.obstaclesH.map resetH }

/-- The full simulation state driving `Simulation::update`: the rational
editor-set maze data plus the continuous agent position, stored path, trace
and velocity (which the integration step makes irrational in general), and
the DWA parameter fields of `simulation.h`. -/
structure SimFull where
  simSt : SimulationState
  time : ℝ
  maze : MazeQ
  current : ℝ × ℝ
  pathR : List (ℝ × ℝ)
  trace : List (ℝ × ℝ)
  velocity : ℝ × ℝ
  maxSpeed : ℝ
  maxRotationSpeed : ℝ

/-- The nearest-path-point loop of `Simulation::updateAgentPosition`
(simulation.cpp 110–119): strict improvement from `(index 0, FLT_MAX)`. -/
def nearestAux (cp : ℝ × ℝ) : List (ℝ × ℝ) → ℕ → ℕ × ℝ → ℕ × ℝ
  | [], _, acc => acc
  | p :: rest, i, acc =>
    nearestAux cp rest (i + 1) (if distR cp p < acc.2 then (i, distR cp p) else acc)

/-- `(currentIndex, minDist)` after the loop. -/
def nearestFold (cp : ℝ × ℝ) (path : List (ℝ × ℝ)) : ℕ × ℝ :=
  nearestAux cp path 0 (0, fltMax)

/-- The traversed-trace append rule (simulation.cpp 146–148 and 169–171):
record the point when the trace is empty or it moved more than `0.01` from
the last recorded point. -/
def pushTrace (tr : List (ℝ × ℝ)) (p : ℝ × ℝ) : List (ℝ × ℝ) :=
  match tr.getLast? with
  | none => tr ++ [p]
  | some q => if distR q p > 1/100 then tr ++ [p] else tr

/-- The next waypoint the tick steers at: `nextIndex = currentIndex + 1`
clamped to the last index (simulation.cpp 128–135). -/
def nextWaypoint (s : SimFull) : ℝ × ℝ :=
  s.pathR.getD (min ((nearestFold s.current s.pathR).1 + 1) (s.pathR.length - 1)) (0, 0)

/-- The direction vector from the agent to the next waypoint. -/
def towardNext (s : SimFull) : ℝ × ℝ :=
  ((nextWaypoint s).1 - s.current.1, (nextWaypoint s).2 - s.current.2)

/-- `Simulation::updateAgentPosition` (simulation.cpp 80–172).  When the path
is empty it first runs the A* planner (`policy`/`fuel` parameterize the
pointer-ordered open set; `none` propagates the search's out-of-range case);
an empty search result makes the tick a no-op.  The body `agentStep`:
nearest-point lookup; snap to the goal when at the last waypoint within
`0.1`; snap to the next waypoint when within `0.1` of it; else move at the
CONSTANT speed `2` toward the next waypoint (`m_agentVelocity = direction *
2.0`), integrating `velocity * dt` — `findBestLocalVelocity` is never
called. -/
def agentStep (s1 : SimFull) (dt : ℚ) : SimFull :=
  if s1.pathR = [] then s1
  else
    let nd := nearestFold s1.current s1.pathR
    if nd.1 ≥ s1.pathR.length - 1 ∧ nd.2 < 1/10 then
      { s1 with current := ((s1.maze.goal.x : ℝ), (s1.maze.goal.y : ℝ)),
                velocity := (0, 0) }
    else
      let nx := s1.pathR.getD (min (nd.1 + 1) (s1.pathR.length - 1)) (0, 0)
      let dirv := (nx.1 - s1.current.1, nx.2 - s1.current.2)
      let dist := vecNorm dirv
      if dist < 1/10 then
        { s1 with current := nx, trace := pushTrace s1.trace nx }
      else
        let vel := (2 * (dirv.1 / dist), 2 * (dirv.2 / dist))
        let np := (s1.current.1 + vel.1 * (dt : ℝ), s1.current.2 + vel.2 * (dt : ℝ))
        { s1 with velocity := vel, current := np, trace := pushTrace s1.trace np }

/-- `Simulation::updateAgentPosition`, the planning prologue (simulation.cpp
85–107): replan with A* only when no path is stored; an empty search result
leaves the tick a no-op, otherwise the freshly planned (or already stored)
path feeds `agentStep`. -/
def updateAgentPositionR (s : SimFull) (dt : ℚ) (policy : ℕ → ℕ) (fuel : ℕ) :
    Option SimFull :=
  if s.pathR = [] then
    match findAStarRun s.maze policy fuel with
    | none => none
    | some [] => some s
    | some p =>
      some (agentStep { s with pathR := p.map (fun c => ((c.x : ℝ), (c.y : ℝ))) } dt)
  else some (agentStep s dt)

/-- `Maze::hasReachedGoal` (maze.cpp 424–426): EXACT coordinate equality of
the agent's position and the goal — no distance threshold. -/
def hasReachedGoalR (s : SimFull) : Prop :=
  s.current.1 = (s.maze.goal.x : ℝ) ∧ s.current.2 = (s.maze.goal.y : ℝ)

/-- `Simulation::update` (simulation.cpp 53–78): only while RUNNING; advance
time, move the dynamic obstacles, move the agent, then transition to FINISHED
exactly when `hasReachedGoal()` holds, freezing the trace as the path. -/
def simUpdateR (s : SimFull) (dt : ℚ) (policy : ℕ → ℕ) (fuel : ℕ) :
    Option SimFull :=
  if s.simSt ≠ SimulationState.RUNNING then some s
  else
    let s1 := { s with time := s.time + (dt : ℝ), maze := mazeUpdateQ s.maze dt }
    match updateAgentPositionR s1 dt policy fuel with
    | none => none
    | some s2 =>
      if hasReachedGoalR s2 then
        some { s2 with simSt := SimulationState.FINISHED, pathR := s2.trace }
      else some s2

/-- The scenario state of claim C5: agent at `(5,5)`, goal `(5, 5.3)`. -/
def simC5 : SimFull :=
  { simSt := SimulationState.RUNNING, time := 0,
    maze := { mkMazeQ 10 10 with goal := ⟨5, 53/10⟩ },
    current := (5, 5), pathR := [], trace := [], velocity := (0, 0),
    maxSpeed := 5, maxRotationSpeed := 2 }

/-- Witness state for C5: a 1×3 maze, agent at `(0,1)` on the stored path
`[(0,0),(0,1),(0,2)]`, goal `(0,2)`. -/
def simW5 : SimFull :=
  { simSt := SimulationState.RUNNING, time := 0, maze := mkMazeQ 1 3,
    current := (0, 1), pathR := [(0, 0), (0, 1), (0, 2)], trace := [],
    velocity := (0, 0), maxSpeed := 5, maxRotationSpeed := 2 }

/-- The state `simW5` evolves to in one `update(0.5)` tick. -/
def simW5res : SimFull :=
  { simSt := SimulationState.FINISHED, time := 1/2, maze := mkMazeQ 1 3,
    current := (0, 2), pathR := [(0, 2)], trace := [(0, 2)],
    velocity := (0, 2), maxSpeed := 5, maxRotationSpeed := 2 }

/-- Counterexample state for C8: a 1×3 maze, agent at `(0, 0.5)` on the
stored path `[(0,0),(0,1),(0,2)]`, with the DWA parameter `maxSpeed = 1`. -/
def simW8 : SimFull :=
  { simSt := SimulationState.RUNNING, time := 0, maze := mkMazeQ 1 3,
    current := (0, 1/2), pathR := [(0, 0), (0, 1), (0, 2)], trace := [],
    velocity := (0, 0), maxSpeed := 1, maxRotationSpeed := 2 }

/-- A circular obstacle created at `(0,5)` orbiting `(0,0)` at radius 5: its
creation angle is `π/2`. -/
def obC9 : ObstacleH :=
  setCircularMovementH (mkDynObstacleH 0 5 MovementType.CIRCULAR) (0, 0) 5 1

/-- A linear dynamic obstacle at `(3,4)` (witness data for C9). -/
def obW9lin : ObstacleH :=
  mkDynObstacleH 3 4 MovementType.LINEAR

/-- A running simulation state holding `obC9` (witness data for C9). -/
def simW9 : SimR :=
  { simSt := SimulationState.RUNNING, time := 7, velocity := (1, 1),
    trace := [(1, 1)], pathR := [(2, 2)], obstaclesH := [obC9] }

end

/-! ## Helper lemmas -/

/-- Each coordinate of `linUpdateH` follows the one-axis reflection form:
advance, and if the advanced coordinate leaves `[0,50)` advance from the old
coordinate with the negated component instead. -/
theorem linUpdateH_pos_eq (o : ObstacleLin) (dt : ℚ) :
    (linUpdateH o dt).pos.x =
      (if o.pos.x + o.dir.x * o.speed * dt < 0 ∨ 50 ≤ o.pos.x + o.dir.x * o.speed * dt
        then o.pos.x - o.dir.x * o.speed * dt
        else o.pos.x + o.dir.x * o.speed * dt) ∧
    (linUpdateH o dt).pos.y =
      (if o.pos.y + o.dir.y * o.speed * dt < 0 ∨ 50 ≤ o.pos.y + o.dir.y * o.speed * dt
        then o.pos.y - o.dir.y * o.speed * dt
        else o.pos.y + o.dir.y * o.speed * dt) := by
  unfold linUpdateH
  by_cases hx : o.pos.x + o.dir.x * o.speed * dt < 0 ∨ 50 ≤ o.pos.x + o.dir.x * o.speed * dt <;>
    by_cases hy : o.pos.y + o.dir.y * o.speed * dt < 0 ∨ 50 ≤ o.pos.y + o.dir.y * o.speed * dt <;>
    simp only [hx, hy, if_pos, if_neg, if_true, if_false, or_true, true_or, or_self,
      not_false_eq_true, or_false, false_or] <;>
    constructor <;> ring_nf

/-- `linUpdateH` only ever negates direction components and never changes the
speed. -/
theorem linUpdateH_dir_eq (o : ObstacleLin) (dt : ℚ) :
    ((linUpdateH o dt).dir.x = o.dir.x ∨ (linUpdateH o dt).dir.x = -o.dir.x) ∧
    ((linUpdateH o dt).dir.y = o.dir.y ∨ (linUpdateH o dt).dir.y = -o.dir.y) ∧
    (linUpdateH o dt).speed = o.speed := by
  unfold linUpdateH
  by_cases hx : o.pos.x + o.dir.x * o.speed * dt < 0 ∨ 50 ≤ o.pos.x + o.dir.x * o.speed * dt <;>
    by_cases hy : o.pos.y + o.dir.y * o.speed * dt < 0 ∨ 50 ≤ o.pos.y + o.dir.y * o.speed * dt <;>
    simp [hx, hy]

/-- One-axis reflection step: a coordinate in `[0,50)` stays in `[0,50)` when
the per-tick displacement has magnitude at most 25. -/
theorem linAxis_mem (x sx : ℚ) (h0 : 0 ≤ x) (h1 : x < 50) (hb : |sx| ≤ 25) :
    0 ≤ (if x + sx < 0 ∨ 50 ≤ x + sx then x - sx else x + sx) ∧
    (if x + sx < 0 ∨ 50 ≤ x + sx then x - sx else x + sx) < 50 := by
  rw [abs_le] at hb
  split
  case isTrue h =>
    rcases h with h | h
    · constructor <;> linarith
    · constructor <;> linarith
  case isFalse h =>
    push_neg at h
    exact ⟨h.1, h.2⟩

/-! ## Claim theorems -/

/-- C1: the open set of `findPathAStar` is
`priority_queue<AStarNode*, vector<AStarNode*>, greater<AStarNode*>>`, whose
comparator compares RAW POINTERS, so `top()` yields the node at the smallest
heap address regardless of `f`.  Concretely: with node A (f = 5) allocated at
address 100 and node B (f = 1) at address 200, the queue pops A, although by
the code's own (unused) `AStarNode::operator>` A is strictly greater than B —
the popped node's `f` is not minimal, refuting the min-f pop property. -/
theorem astar_open_set_pops_min_address_not_min_f :
    ptrQueueTop [(100, (5 : ℚ)), (200, (1 : ℚ))] = some (100, 5) ∧
    astarNodeGt 5 1 := by
  constructor
  · rfl
  · show (5 : ℚ) > 1
    norm_num

/-- C3 (corrected): `addObstacle` (both overloads), `removeObstacle` and
`Maze::update` leave the stored path exactly as it was — none of them clears
it, so obstacle-set changes do not invalidate the path. -/
theorem obstacle_mutations_preserve_path (m : MazeQ) (x y : ℤ) (xq yq r dt : ℚ) :
    (addObstacleQ m x y).path = m.path ∧
    (addObstacleD m xq yq r).path = m.path ∧
    (removeObstacleQ m x y).path = m.path ∧
    (mazeUpdateQ m dt).path = m.path := by
  refine ⟨?_, rfl, rfl, rfl⟩
  unfold addObstacleQ
  split <;> rfl

/-- C3 counterexample: on a 2×2 maze with stored path `[(0,0),(1,1)]`,
`addObstacle(1,1)` adds an obstacle yet leaves the path untouched and
non-empty, and the cell `(1,1)` of the stored path is now blocked —
contradicting both "every call to addObstacle clears the path" and the
claimed invariant that a non-empty stored path contains no blocked cell. -/
theorem add_obstacle_keeps_stale_path :
    (addObstacleQ mazeC3 1 1).obstacles ≠ mazeC3.obstacles ∧
    (addObstacleQ mazeC3 1 1).path = [⟨0, 0⟩, ⟨1, 1⟩] ∧
    (addObstacleQ mazeC3 1 1).path ≠ [] ∧
    (⟨1, 1⟩ : PointQ) ∈ (addObstacleQ mazeC3 1 1).path ∧
    isObstacleCell (addObstacleQ mazeC3 1 1) 1 1 := by
  with_unfolding_all decide

/-- C4 counterexample: in a 10×10 maze, the dynamic obstacle at `(9.5, 5)`
with direction `(1,0)` and speed 3 starts inside `[0,10)×[0,10)`, but a single
`Maze::update(0.2)` moves it to x = 10.1 ≥ 10: the reflection logic compares
against the HARD-CODED bound 50, not the grid's width/height, so the obstacle
escapes the grid. -/
theorem linear_obstacle_escapes_grid :
    (∀ o ∈ mazeC4.dynObstacles,
      0 ≤ o.pos.x ∧ o.pos.x < (mazeC4.width : ℚ) ∧
      0 ≤ o.pos.y ∧ o.pos.y < (mazeC4.height : ℚ)) ∧
    (∃ o ∈ (mazeUpdateQ mazeC4 (1/5)).dynObstacles,
      o.pos.x = 101/10 ∧ ¬ o.pos.x < (mazeC4.width : ℚ)) := by
  with_unfolding_all decide

/-- C4 (corrected): the linear-motion reflection keeps the obstacle inside the
HARD-CODED box `[0,50)×[0,50)` (not the grid's `[0,width)×[0,height)`), and
only under a step-size bound: if every per-tick per-axis displacement has
magnitude at most 25, an obstacle starting in the box stays in the box after
every update of a finite dt sequence. -/
theorem linear_obstacle_bounded_in_hardcoded_box (dts : List ℚ) (o : ObstacleLin)
    (hx : 0 ≤ o.pos.x ∧ o.pos.x < 50) (hy : 0 ≤ o.pos.y ∧ o.pos.y < 50)
    (hs : ∀ dt ∈ dts, |o.dir.x * o.speed * dt| ≤ 25 ∧ |o.dir.y * o.speed * dt| ≤ 25) :
    (0 ≤ (linUpdateHSeq o dts).pos.x ∧ (linUpdateHSeq o dts).pos.x < 50) ∧
    (0 ≤ (linUpdateHSeq o dts).pos.y ∧ (linUpdateHSeq o dts).pos.y < 50) := by
  induction dts generalizing o with
  | nil => exact ⟨hx, hy⟩
  | cons dt rest ih =>
    have hstep := hs dt (List.mem_cons_self dt rest)
    have hpos := linUpdateH_pos_eq o dt
    have hdir := linUpdateH_dir_eq o dt
    have hx1 : 0 ≤ (linUpdateH o dt).pos.x ∧ (linUpdateH o dt).pos.x < 50 := by
      rw [hpos.1]
      exact linAxis_mem o.pos.x (o.dir.x * o.speed * dt) hx.1 hx.2 hstep.1
    have hy1 : 0 ≤ (linUpdateH o dt).pos.y ∧ (linUpdateH o dt).pos.y < 50 := by
      rw [hpos.2]
      exact linAxis_mem o.pos.y (o.dir.y * o.speed * dt) hy.1 hy.2 hstep.2
    have hs1 : ∀ d2 ∈ rest,
        |(linUpdateH o dt).dir.x * (linUpdateH o dt).speed * d2| ≤ 25 ∧
        |(linUpdateH o dt).dir.y * (linUpdateH o dt).speed * d2| ≤ 25 := by
      intro d2 hd2
      have h2 := hs d2 (List.mem_cons_of_mem dt hd2)
      rw [hdir.2.2]
      constructor
      · rcases hdir.1 with h | h
        · rw [h]; exact h2.1
        · rw [h]
          calc |-o.dir.x * o.speed * d2| = |o.dir.x * o.speed * d2| := by
                rw [show -o.dir.x * o.speed * d2 = -(o.dir.x * o.speed * d2) by ring, abs_neg]
            _ ≤ 25 := h2.1
      · rcases hdir.2.1 with h | h
        · rw [h]; exact h2.2
        · rw [h]
          calc |-o.dir.y * o.speed * d2| = |o.dir.y * o.speed * d2| := by
                rw [show -o.dir.y * o.speed * d2 = -(o.dir.y * o.speed * d2) by ring, abs_neg]
            _ ≤ 25 := h2.2
    have := ih (linUpdateH o dt) hx1 hy1 hs1
    simpa [linUpdateHSeq, List.foldl_cons] using this

/-- Witness for C4's amended theorem at the obstacle `(1,1)`, direction
`(1,0)`, speed 3, one step of `dt = 1`. -/
theorem linear_obstacle_bounded_in_hardcoded_box_witness :
    ((0 ≤ obW4.pos.x ∧ obW4.pos.x < 50) ∧ (0 ≤ obW4.pos.y ∧ obW4.pos.y < 50) ∧
      (∀ dt ∈ [(1 : ℚ)], |obW4.dir.x * obW4.speed * dt| ≤ 25 ∧
        |obW4.dir.y * obW4.speed * dt| ≤ 25)) ∧
    ((0 ≤ (linUpdateHSeq obW4 [1]).pos.x ∧ (linUpdateHSeq obW4 [1]).pos.x < 50) ∧
      (0 ≤ (linUpdateHSeq obW4 [1]).pos.y ∧ (linUpdateHSeq obW4 [1]).pos.y < 50)) :=
  ⟨⟨by with_unfolding_all decide, by with_unfolding_all decide, by with_unfolding_all decide⟩,
    linear_obstacle_bounded_in_hardcoded_box [1] obW4 (by with_unfolding_all decide)
      (by with_unfolding_all decide) (by with_unfolding_all decide)⟩

/-- C7: `setStart`/`setGoal` are accepted exactly when the cell is in bounds
and obstacle-free; a rejected call leaves the whole maze unchanged (no error),
and an accepted `setStart` moves start and the agent's current position to the
cell and clears the stored path (an accepted `setGoal` moves the goal and
clears the path), touching nothing else. -/
theorem set_start_goal_guarded (m : MazeQ) (x y : ℤ) :
    (¬ (isValidZ m x y ∧ ¬ isObstacleCell m x y) →
      setStartQ m x y = m ∧ setGoalQ m x y = m) ∧
    (isValidZ m x y ∧ ¬ isObstacleCell m x y →
      (setStartQ m x y).start = ⟨(x : ℚ), (y : ℚ)⟩ ∧
      (setStartQ m x y).current = ⟨(x : ℚ), (y : ℚ)⟩ ∧
      (setStartQ m x y).path = [] ∧
      (setStartQ m x y).goal = m.goal ∧
      (setStartQ m x y).obstacles = m.obstacles ∧
      (setStartQ m x y).dynObstacles = m.dynObstacles ∧
      (setStartQ m x y).width = m.width ∧
      (setStartQ m x y).height = m.height ∧
      (setGoalQ m x y).goal = ⟨(x : ℚ), (y : ℚ)⟩ ∧
      (setGoalQ m x y).path = [] ∧
      (setGoalQ m x y).start = m.start ∧
      (setGoalQ m x y).current = m.current ∧
      (setGoalQ m x y).obstacles = m.obstacles ∧
      (setGoalQ m x y).dynObstacles = m.dynObstacles ∧
      (setGoalQ m x y).width = m.width ∧
      (setGoalQ m x y).height = m.height) := by
  constructor
  · intro h
    unfold setStartQ setGoalQ
    rw [if_neg h, if_neg h]
    exact ⟨rfl, rfl⟩
  · intro h
    unfold setStartQ setGoalQ
    rw [if_pos h, if_pos h]
    exact ⟨rfl, rfl, rfl, rfl, rfl, rfl, rfl, rfl, rfl, rfl, rfl, rfl, rfl, rfl, rfl, rfl⟩

/-- Witness for C7 on a 2×2 maze: `setStart(5,5)` (out of bounds) is a no-op,
while `setStart(1,0)` is accepted and moves the start. -/
theorem set_start_goal_guarded_witness :
    (setStartQ (mkMazeQ 2 2) 5 5 = mkMazeQ 2 2 ∧ setGoalQ (mkMazeQ 2 2) 5 5 = mkMazeQ 2 2) ∧
    (setStartQ (mkMazeQ 2 2) 1 0).start = ⟨((1 : ℤ) : ℚ), ((0 : ℤ) : ℚ)⟩ :=
  ⟨(set_start_goal_guarded (mkMazeQ 2 2) 5 5).1 (by with_unfolding_all decide),
    ((set_start_goal_guarded (mkMazeQ 2 2) 1 0).2 (by with_unfolding_all decide)).1⟩

/-! ## A* lemmas -/

/-- Truncation is the identity on integer-valued rationals. -/
theorem truncQ_intCast (a : ℤ) : truncQ (a : ℚ) = a := by
  unfold truncQ
  split
  · exact Int.floor_intCast a
  · exact Int.ceil_intCast a

/-- Erasing an index yields a sublist of the members. -/
theorem mem_of_mem_eraseIdx {α : Type} : ∀ (l : List α) (k : ℕ) (x : α),
    x ∈ l.eraseIdx k → x ∈ l
  | [], _, _, h => by simp [List.eraseIdx] at h
  | a :: l, 0, x, h => by
    simp only [List.eraseIdx] at h
    exact List.mem_cons_of_mem a h
  | a :: l, k + 1, x, h => by
    simp only [List.eraseIdx] at h
    rcases List.mem_cons.mp h with h | h
    · exact h ▸ List.mem_cons_self a l
    · exact List.mem_cons_of_mem a (mem_of_mem_eraseIdx l k x h)

/-- All-but-the-head of a reconstructed path consists of non-root nodes, which
the neighbor loop only ever allocates on safe cells. -/
theorem recon_tail_safe (m : MazeQ) (nodes : List ANode)
    (hsafe : safeNodes m nodes) :
    ∀ (fuel : ℕ) (i : ℕ), ∀ c ∈ (recon nodes i fuel).tail, safeCellP m c := by
  intro fuel
  induction fuel with
  | zero => intro i c hc; simp [recon] at hc
  | succ fuel ih =>
    intro i c hc
    rw [recon] at hc
    rcases hget : nodes.get? i with _ | n
    · simp only [hget] at hc; simp at hc
    · simp only [hget] at hc
      rcases hp : n.parent with _ | p
      · simp only [hp] at hc; simp at hc
      · simp only [hp] at hc
        have hsafen : safeCellP m ⟨(n.x : ℚ), (n.y : ℚ)⟩ := by
          have hmem : n ∈ nodes := List.get?_mem hget
          have := hsafe n hmem (by rw [hp]; exact Option.some_ne_none p)
          unfold safeCellP
          rw [truncQ_intCast, truncQ_intCast]
          exact this
        rcases hl : recon nodes p fuel with _ | ⟨h0, t0⟩
        · simp only [hl] at hc; simp at hc
        · simp only [hl] at hc
          simp only [List.cons_append, List.tail_cons] at hc
          rcases List.mem_append.mp hc with h | h
          · have : c ∈ (recon nodes p fuel).tail := by rw [hl]; exact h
            exact ih p c this
          · rw [List.mem_singleton.mp h]
            exact hsafen

/-- The neighbor sweep preserves the "non-root nodes are safe" invariant. -/
theorem expand_safeNodes (m : MazeQ) (cur : ANode) (ci : ℕ) :
    ∀ (dirs : List (ℤ × ℤ × ℚ)) (st st1 : AState),
      safeNodes m st.nodes → expand m cur ci dirs st = some st1 →
      safeNodes m st1.nodes
  | [], st, st1, hsafe, heq => by
    simp only [expand] at heq
    injection heq with h
    rw [← h]; exact hsafe
  | (dx, dy, c) :: rest, st, st1, hsafe, heq => by
    simp only [expand] at heq
    by_cases hguard : isValidZ m (cur.x + dx) (cur.y + dy) ∧ isSafeZ m (cur.x + dx) (cur.y + dy)
    · rw [if_pos hguard] at heq
      rcases hvg : vget st.vis (cur.x + dx) (cur.y + dy) with _ | b
      · simp only [hvg] at heq; simp at heq
      · simp only [hvg] at heq
        cases b with
        | true => exact expand_safeNodes m cur ci rest st st1 hsafe heq
        | false =>
          rcases hvs : vset st.vis (cur.x + dx) (cur.y + dy) true with _ | vis1
          · simp only [hvs] at heq; simp at heq
          · simp only [hvs] at heq
            refine expand_safeNodes m cur ci rest _ st1 ?_ heq
            intro n hn hp
            rcases List.mem_append.mp hn with h | h
            · exact hsafe n h hp
            · rw [List.mem_singleton.mp h]
              exact hguard.2
    · rw [if_neg hguard] at heq
      exact expand_safeNodes m cur ci rest st st1 hsafe heq

/-- Any path produced by the main loop from a state whose non-root nodes are
all safe has only safe cells after its head. -/
theorem astarLoop_tail_safe (m : MazeQ) (policy : ℕ → ℕ) :
    ∀ (fuel : ℕ) (st : AState) (step : ℕ) (p : List PointQ),
      safeNodes m st.nodes → astarLoop m policy st step fuel = some p →
      ∀ c ∈ p.tail, safeCellP m c := by
  intro fuel
  induction fuel with
  | zero =>
    intro st step p _ heq c hc
    simp only [astarLoop] at heq
    injection heq with h
    rw [← h] at hc; simp at hc
  | succ fuel ih =>
    intro st step p hsafe heq c hc
    rw [astarLoop] at heq
    rcases hop : st.opens with _ | ⟨a, l⟩
    · rw [hop] at heq
      injection heq with h
      rw [← h] at hc; simp at hc
    · simp only [hop] at heq
      rcases hget : st.nodes.get? ((a :: l).getD (policy step % (a :: l).length) 0) with _ | cur
      · simp only [hget] at heq; simp at heq
      · simp only [hget] at heq
        by_cases hgoal : ((cur.x : ℚ) = m.goal.x ∧ (cur.y : ℚ) = m.goal.y)
        · rw [if_pos hgoal] at heq
          injection heq with h
          rw [← h] at hc
          exact recon_tail_safe m st.nodes hsafe (st.nodes.length + 1) _ c hc
        · rw [if_neg hgoal] at heq
          rcases hvs : vset st.vis cur.x cur.y true with _ | vis1
          · simp only [hvs] at heq; simp at heq
          · simp only [hvs] at heq
            rcases hex : expand m cur ((a :: l).getD (policy step % (a :: l).length) 0) astarDirs
                { nodes := st.nodes, opens := (a :: l).eraseIdx (policy step % (a :: l).length),
                  vis := vis1 } with _ | st1
            · simp only [hex] at heq; simp at heq
            · simp only [hex] at heq
              have hsafe1 : safeNodes m st1.nodes :=
                expand_safeNodes m cur ((a :: l).getD (policy step % (a :: l).length) 0)
                  astarDirs
                  { nodes := st.nodes, opens := (a :: l).eraseIdx (policy step % (a :: l).length),
                    vis := vis1 } st1 hsafe hex
              exact ih st1 (step + 1) p hsafe1 heq c hc

/-- A valid cell can always be read in a well-formed visited matrix. -/
theorem vget_some (m : MazeQ) (vis : List (List Bool)) (x y : ℤ)
    (hv : isValidZ m x y) (hd : visDims m vis) : ∃ b, vget vis x y = some b := by
  obtain ⟨hx0, hxw, hy0, hyh⟩ := hv
  have hxlen : x.toNat < vis.length := by rw [hd.1]; omega
  have hrow := List.get?_eq_get hxlen
  have hrl : (vis.get ⟨x.toNat, hxlen⟩).length = m.height.toNat :=
    hd.2 _ (List.get_mem vis x.toNat hxlen)
  have hylen : y.toNat < (vis.get ⟨x.toNat, hxlen⟩).length := by rw [hrl]; omega
  refine ⟨(vis.get ⟨x.toNat, hxlen⟩).get ⟨y.toNat, hylen⟩, ?_⟩
  unfold vget
  rw [if_neg (by omega), hrow]
  exact List.get?_eq_get hylen

/-- A valid cell can always be written in a well-formed visited matrix, and
the write preserves well-formedness. -/
theorem vset_some (m : MazeQ) (vis : List (List Bool)) (x y : ℤ) (b : Bool)
    (hv : isValidZ m x y) (hd : visDims m vis) :
    ∃ vis1, vset vis x y b = some vis1 ∧ visDims m vis1 := by
  obtain ⟨hx0, hxw, hy0, hyh⟩ := hv
  have hxlen : x.toNat < vis.length := by rw [hd.1]; omega
  have hrow := List.get?_eq_get hxlen
  have hrl : (vis.get ⟨x.toNat, hxlen⟩).length = m.height.toNat :=
    hd.2 _ (List.get_mem vis x.toNat hxlen)
  refine ⟨vis.set x.toNat ((vis.get ⟨x.toNat, hxlen⟩).set y.toNat b), ?_, ?_, ?_⟩
  · unfold vset
    rw [if_neg (by omega)]
    simp only [hrow]
    rw [if_pos (by rw [hrl]; omega)]
  · rw [List.length_set]; exact hd.1
  · intro row hrowmem
    rcases List.mem_or_eq_of_mem_set hrowmem with h | h
    · exact hd.2 row h
    · rw [h, List.length_set]
      exact hrl

/-- The neighbor sweep succeeds from a well-formed state and preserves
well-formedness; the allocation list only grows. -/
theorem expand_stateOk (m : MazeQ) (cur : ANode) (ci : ℕ) :
    ∀ (dirs : List (ℤ × ℤ × ℚ)) (st : AState),
      stateOk m st →
      ∃ st1, expand m cur ci dirs st = some st1 ∧ stateOk m st1 ∧
        st.nodes.length ≤ st1.nodes.length
  | [], st, hok => ⟨st, by simp [expand], hok, le_refl _⟩
  | (dx, dy, c) :: rest, st, hok => by
    simp only [expand]
    by_cases hguard : isValidZ m (cur.x + dx) (cur.y + dy) ∧ isSafeZ m (cur.x + dx) (cur.y + dy)
    · rw [if_pos hguard]
      obtain ⟨b, hb⟩ := vget_some m st.vis _ _ hguard.1 hok.1
      simp only [hb]
      cases b with
      | true => exact expand_stateOk m cur ci rest st hok
      | false =>
        obtain ⟨vis1, hvs, hd1⟩ := vset_some m st.vis _ _ true hguard.1 hok.1
        simp only [hvs]
        have hok1 : stateOk m
            { nodes := st.nodes ++ [⟨cur.x + dx, cur.y + dy, cur.g + c,
                hsqQ (cur.x + dx) (cur.y + dy) m.goal, some ci⟩],
              opens := st.opens ++ [st.nodes.length], vis := vis1 } := by
          refine ⟨hd1, ?_, ?_⟩
          · intro n hn
            rcases List.mem_append.mp hn with h | h
            · exact hok.2.1 n h
            · rw [List.mem_singleton.mp h]
              exact hguard.1
          · intro i hi
            simp only [List.length_append, List.length_singleton]
            rcases List.mem_append.mp hi with h | h
            · have := hok.2.2 i h; omega
            · rw [List.mem_singleton.mp h]; omega
        obtain ⟨st1, heq, hok2, hlen⟩ := expand_stateOk m cur ci rest _ hok1
        refine ⟨st1, heq, hok2, ?_⟩
        simp only [List.length_append, List.length_singleton] at hlen
        omega
    · rw [if_neg hguard]
      exact expand_stateOk m cur ci rest st hok

/-- From a well-formed state, the main loop never performs an out-of-range
visited access: it always produces a path. -/
theorem astarLoop_isSome (m : MazeQ) (policy : ℕ → ℕ) :
    ∀ (fuel : ℕ) (st : AState) (step : ℕ),
      stateOk m st → (astarLoop m policy st step fuel).isSome := by
  intro fuel
  induction fuel with
  | zero => intro st step _; simp [astarLoop]
  | succ fuel ih =>
    intro st step hok
    rw [astarLoop]
    rcases hop : st.opens with _ | ⟨a, l⟩
    · simp only [hop]; simp
    · simp only [hop]
      have hklen : policy step % (a :: l).length < (a :: l).length :=
        Nat.mod_lt _ (by simp)
      have hgetD : (a :: l).getD (policy step % (a :: l).length) 0 =
          (a :: l).get ⟨policy step % (a :: l).length, hklen⟩ := by
        rw [List.getD_eq_get?, List.get?_eq_get hklen]
        rfl
      have hcimem : (a :: l).getD (policy step % (a :: l).length) 0 ∈ (a :: l) := by
        rw [hgetD]; exact List.get_mem _ _ _
      have hciopen : (a :: l).getD (policy step % (a :: l).length) 0 ∈ st.opens := by
        rw [hop]; exact hcimem
      have hcilen : (a :: l).getD (policy step % (a :: l).length) 0 < st.nodes.length :=
        hok.2.2 _ hciopen
      have hget := List.get?_eq_get hcilen
      simp only [hget]
      set cur := st.nodes.get ⟨(a :: l).getD (policy step % (a :: l).length) 0, hcilen⟩ with hcur
      have hcurmem : cur ∈ st.nodes := List.get_mem _ _ _
      have hcurvalid : isValidZ m cur.x cur.y := hok.2.1 cur hcurmem
      by_cases hgoal : ((cur.x : ℚ) = m.goal.x ∧ (cur.y : ℚ) = m.goal.y)
      · rw [if_pos hgoal]; simp
      · rw [if_neg hgoal]
        obtain ⟨vis1, hvs, hd1⟩ := vset_some m st.vis cur.x cur.y true hcurvalid hok.1
        simp only [hvs]
        have hok1 : stateOk m
            { nodes := st.nodes, opens := (a :: l).eraseIdx (policy step % (a :: l).length),
              vis := vis1 } := by
          refine ⟨hd1, hok.2.1, ?_⟩
          intro i hi
          have : i ∈ (a :: l) := mem_of_mem_eraseIdx _ _ _ hi
          exact hok.2.2 i (by rw [hop]; exact this)
        obtain ⟨st1, hex, hok2, _⟩ := expand_stateOk m cur
          ((a :: l).getD (policy step % (a :: l).length) 0) astarDirs
          { nodes := st.nodes, opens := (a :: l).eraseIdx (policy step % (a :: l).length),
            vis := vis1 } hok1
        simp only [hex]
        exact ih st1 (step + 1) hok2

/-! ## Remaining claim theorems on the A* search -/

/-- C6 (corrected): every cell of a returned A* path EXCEPT possibly the start
cell is unblocked at the time of the query, for every maze state, pop policy
(the pointer-ordered open set is unspecified) and fuel: all non-root nodes are
generated through the `isValid && isSafe` guard.  The start cell itself is
never checked (see the counterexample). -/
theorem astar_tail_soundness (m : MazeQ) (policy : ℕ → ℕ) (fuel : ℕ)
    (p : List PointQ) (h : findAStarRun m policy fuel = some p) :
    ∀ c ∈ p.tail, safeCellP m c := by
  unfold findAStarRun at h
  refine astarLoop_tail_safe m policy fuel _ 0 p ?_ h
  intro n hn hp
  rw [List.mem_singleton.mp hn] at hp
  simp at hp

/-- Witness for C6's amended theorem: on an empty 1×1 maze the search returns
the one-cell path `[(0,0)]`, whose tail is trivially safe. -/
theorem astar_tail_soundness_witness :
    (findAStarRun (mkMazeQ 1 1) (fun _ => 0) 2 = some [⟨0, 0⟩]) ∧
    (∀ c ∈ ([⟨0, 0⟩] : List PointQ).tail, safeCellP (mkMazeQ 1 1) c) :=
  ⟨by with_unfolding_all decide,
    astar_tail_soundness (mkMazeQ 1 1) (fun _ => 0) 2 [⟨0, 0⟩]
      (by with_unfolding_all decide)⟩

/-- C6 counterexample: in `mazeC6` (goal moved onto the start and an obstacle
then dropped exactly there through the unchecked double-overload of
`addObstacle`), `findPathAStar` returns the non-empty path `[(0,0)]` whose
(start) cell is an obstacle at query time — the returned path does contain a
blocked cell. -/
theorem astar_path_contains_blocked_start :
    findAStarRun mazeC6 (fun _ => 0) 5 = some [⟨0, 0⟩] ∧
    (⟨0, 0⟩ : PointQ) ∈ [(⟨0, 0⟩ : PointQ)] ∧
    isObstacleCell mazeC6 0 0 ∧
    ¬ safeCellP mazeC6 ⟨0, 0⟩ := by
  with_unfolding_all decide

/-- C10: when the (truncated) start and goal cells are in bounds, every
access to the `visited` matrix is in range — the run never hits the
out-of-range branch (`isSome`); and without that precondition, concretely
after `clearStart` plants the sentinel `(-1,-1)` on a 2×2 maze, the very
first visited access `visited[-1][-1]` is out of range (the run returns
`none`), for every pop policy and any positive fuel. -/
theorem astar_visited_access_in_bounds (m : MazeQ) (policy : ℕ → ℕ) (fuel : ℕ)
    (hs : isValidZ m (truncQ m.start.x) (truncQ m.start.y))
    (hg : isValidZ m (truncQ m.goal.x) (truncQ m.goal.y)) :
    (findAStarRun m policy fuel).isSome ∧
    (∀ (pol2 : ℕ → ℕ) (f2 : ℕ),
      findAStarRun (clearStartQ (mkMazeQ 2 2)) pol2 (f2 + 1) = none) := by
  constructor
  · unfold findAStarRun
    refine astarLoop_isSome m policy fuel _ 0 ⟨⟨?_, ?_⟩, ?_, ?_⟩
    · simp [mkVisited]
    · intro row hrow
      rw [List.eq_of_mem_replicate hrow]
      simp [mkVisited]
    · intro n hn
      rw [List.mem_singleton.mp hn]
      exact hs
    · intro i hi
      rw [List.mem_singleton.mp hi]
      simp
  · intro pol2 f2
    rw [findAStarRun, astarLoop]
    simp only [List.length_cons, List.length_nil, Nat.zero_add, Nat.mod_one,
      List.getD_cons_zero, List.get?]
    rw [if_neg (by with_unfolding_all decide)]
    rw [show vset (mkVisited (clearStartQ (mkMazeQ 2 2)).width
        (clearStartQ (mkMazeQ 2 2)).height)
        (truncQ (clearStartQ (mkMazeQ 2 2)).start.x)
        (truncQ (clearStartQ (mkMazeQ 2 2)).start.y) true = none from by
      with_unfolding_all decide]

/-- Witness for C10 on the default-constructed 2×2 maze: start `(0,0)` and
goal `(1,1)` are in bounds, and the search succeeds. -/
theorem astar_visited_access_in_bounds_witness :
    (isValidZ (mkMazeQ 2 2) (truncQ (mkMazeQ 2 2).start.x) (truncQ (mkMazeQ 2 2).start.y) ∧
      isValidZ (mkMazeQ 2 2) (truncQ (mkMazeQ 2 2).goal.x) (truncQ (mkMazeQ 2 2).goal.y)) ∧
    (findAStarRun (mkMazeQ 2 2) (fun _ => 0) 9 ).isSome :=
  ⟨⟨by with_unfolding_all decide, by with_unfolding_all decide⟩,
    (astar_visited_access_in_bounds (mkMazeQ 2 2) (fun _ => 0) 9
      (by with_unfolding_all decide) (by with_unfolding_all decide)).1⟩

/-! ## DWA evaluation lemmas -/

/-- Truncation over `ℝ` is the identity on integers. -/
theorem truncR_intCast (a : ℤ) : truncR ((a : ℤ) : ℝ) = a := by
  unfold truncR
  split
  · exact Int.floor_intCast a
  · exact Int.ceil_intCast a

/-- Square-root evaluation at a perfect square. -/
theorem sqrt_eval {a b : ℝ} (hb : 0 ≤ b) (h : a = b ^ 2) : Real.sqrt a = b := by
  rw [h, Real.sqrt_sq hb]

/-- A zero-velocity rollout from a safe cell repeats that cell. -/
theorem rollout_zero_vel (m : MazeQ) (x y dt : ℝ)
    (hin : isValidZ m (truncR x) (truncR y))
    (hcol : ¬ checkCollisionCell m (truncR x) (truncR y) (1/2)) :
    ∀ n, rollout m (0, 0) x y dt n = List.replicate n (truncR x, truncR y) := by
  intro n
  induction n with
  | zero => rw [rollout]; rfl
  | succ n ih =>
    rw [rollout]
    simp only
    rw [show x + (0:ℝ) * dt = x by ring, show y + (0:ℝ) * dt = y by ring]
    rw [if_neg (by push_neg; exact ⟨hin, hcol⟩)]
    rw [ih, List.replicate_succ]

/-- The colliding rollout of candidate `(5,0)` in `mazeC2`: the very first
step lands on the cell `(3,2)`, which collides with the obstacle at
`(2.9, 2)`, so the trajectory stops there. -/
theorem rollout_coll_eval :
    rollout mazeC2 (5, 0) 2 2 (1/5) 10 = [((3 : ℤ), (2 : ℤ))] := by
  rw [show (10 : ℕ) = 9 + 1 from rfl, rollout]
  simp only
  rw [show (2:ℝ) + (5:ℝ) * (1/5) = ((3 : ℤ) : ℝ) by norm_num,
    show (2:ℝ) + (0:ℝ) * (1/5) = ((2 : ℤ) : ℝ) by norm_num,
    truncR_intCast, truncR_intCast]
  rw [if_pos (Or.inr (by with_unfolding_all decide))]

/-- The cell `(2,2)` of `mazeC2` is valid and collision-free, but shares the
grid cell of the obstacle at `(2.9, 2)`. -/
theorem mazeC2_cell22 :
    isValidZ mazeC2 2 2 ∧ ¬ checkCollisionCell mazeC2 2 2 (1/2) ∧
    (mazeC2.obstacles.map (fun o => gridPosQ o.pos)) = [((2 : ℤ), (2 : ℤ))] ∧
    mazeC2.dynObstacles = [] := by
  with_unfolding_all decide

/-- The minimum obstacle distance from cell `(2,2)` in `mazeC2` is zero: the
obstacle's grid position is the very cell. -/
theorem minObstDist_eval : minObstDist mazeC2 ((2 : ℤ), (2 : ℤ)) = 0 := by
  unfold minObstDist
  rw [mazeC2_cell22.2.2.1, mazeC2_cell22.2.2.2]
  simp only [List.map_nil, List.foldl_cons, List.foldl_nil]
  rw [show distR (((2:ℤ):ℝ), ((2:ℤ):ℝ)) (((2:ℤ):ℝ), ((2:ℤ):ℝ)) = 0 from
    sqrt_eval le_rfl (by push_cast; ring)]
  rw [min_eq_right (by unfold fltMax; norm_num)]

/-- The per-point score loop on any number of copies of the cell `(2,2)` of
`mazeC2` collapses the score to `min score 0`. -/
theorem obstacleScoreGo_c22 :
    ∀ (n : ℕ) (s : ℝ),
      obstacleScoreGo mazeC2 s (List.replicate (n + 1) ((2 : ℤ), (2 : ℤ))) = min s 0 := by
  intro n
  induction n with
  | zero =>
    intro s
    rw [List.replicate_succ, List.replicate_zero, obstacleScoreGo]
    rw [if_neg (not_not_intro mazeC2_cell22.1), if_neg mazeC2_cell22.2.1]
    simp only [minObstDist_eval]
    rw [if_pos (by norm_num)]
    rw [obstacleScoreGo]
    norm_num
  | succ n ih =>
    intro s
    rw [List.replicate_succ, obstacleScoreGo]
    rw [if_neg (not_not_intro mazeC2_cell22.1), if_neg mazeC2_cell22.2.1]
    simp only [minObstDist_eval]
    rw [if_pos (by norm_num)]
    rw [ih]
    rw [show min s (0/2 : ℝ) = min s 0 by norm_num]
    rw [min_assoc, min_self]

/-- Norm evaluation at a perfect square. -/
theorem vecNorm_eval {a b c : ℝ} (hc : 0 ≤ c) (h : a ^ 2 + b ^ 2 = c ^ 2) :
    vecNorm (a, b) = c := by
  unfold vecNorm
  exact sqrt_eval hc (by rw [← h])

/-- Distance evaluation at a perfect square. -/
theorem distR_eval {px py qx qy c : ℝ} (hc : 0 ≤ c)
    (h : (px - qx) ^ 2 + (py - qy) ^ 2 = c ^ 2) :
    distR (px, py) (qx, qy) = c := by
  unfold distR
  exact sqrt_eval hc (by rw [← h])

/-- Truncation of the real literal `2` is the cell coordinate `2`. -/
theorem truncR_two : truncR (2 : ℝ) = 2 := by
  rw [show (2:ℝ) = ((2:ℤ) : ℝ) by norm_num, truncR_intCast]

/-- The safe candidate's rollout in `mazeC2`: the zero velocity keeps the
agent on the (valid, collision-free) cell `(2,2)` for all ten steps. -/
theorem rollout_safe_eval :
    rollout mazeC2 (0, 0) 2 2 (1/5) 10 = List.replicate 10 ((2 : ℤ), (2 : ℤ)) := by
  have h := rollout_zero_vel mazeC2 2 2 (1/5) (by rw [truncR_two]; with_unfolding_all decide)
    (by rw [truncR_two]; with_unfolding_all decide) 10
  rwa [truncR_two] at h

/-- Obstacle score of the safe trajectory: the agent sits on the obstacle's
own grid cell, so the clearance term drives the score to `0` — strictly
below the `0.1` a colliding trajectory receives. -/
theorem obstacle_safe_eval :
    calculateObstacleAvoidanceScore mazeC2 (List.replicate 10 ((2 : ℤ), (2 : ℤ))) = 0 := by
  unfold calculateObstacleAvoidanceScore
  rw [if_neg (by simp), show (10 : ℕ) = 9 + 1 from rfl, obstacleScoreGo_c22]
  norm_num

/-- Obstacle score of the colliding trajectory: the fixed value `0.1`. -/
theorem obstacle_coll_eval :
    calculateObstacleAvoidanceScore mazeC2 [((3 : ℤ), (2 : ℤ))] = 1/10 := by
  unfold calculateObstacleAvoidanceScore
  rw [if_neg (by simp), obstacleScoreGo]
  rw [if_neg (not_not_intro (by with_unfolding_all decide)),
    if_pos (by with_unfolding_all decide)]

/-- The zero vector has norm zero. -/
theorem vecNorm_zero : vecNorm ((0 : ℝ), (0 : ℝ)) = 0 :=
  vecNorm_eval le_rfl (by norm_num)

/-- Direction score of the zero velocity: the small-velocity fallback `0.5`. -/
theorem dir_safe_eval :
    calculateGoalDirectionScore (0, 0) (2, 2) (5/2, 2) = 1/2 := by
  unfold calculateGoalDirectionScore
  rw [if_pos (by rw [vecNorm_zero]; norm_num)]

/-- Direction score of the candidate `(5,0)`: it points exactly at the
target, so the rescaled cosine is `1`. -/
theorem dir_coll_eval :
    calculateGoalDirectionScore (5, 0) (2, 2) (5/2, 2) = 1 := by
  unfold calculateGoalDirectionScore
  have h5 : vecNorm ((5 : ℝ), (0 : ℝ)) = 5 := vecNorm_eval (by norm_num) (by norm_num)
  rw [if_neg (by rw [h5]; norm_num)]
  simp only
  have hg : vecNorm ((5/2 - 2 : ℝ), (2 - 2 : ℝ)) = 1/2 :=
    vecNorm_eval (by norm_num) (by norm_num)
  rw [if_neg (by rw [hg]; norm_num)]
  unfold vecNormalize
  rw [h5, hg]
  rw [if_neg (by norm_num), if_neg (by norm_num)]
  norm_num

/-- Distance score of both candidates: the safe endpoint `(2,2)` and the
colliding endpoint `(3,2)` are both exactly `1/2` away from the target
`(2.5, 2)`. -/
theorem dist_ends_eval :
    calculateGoalDistanceScore (((2 : ℤ) : ℝ), ((2 : ℤ) : ℝ)) (5/2, 2) =
        Real.exp (-(1/20)) ∧
    calculateGoalDistanceScore (((3 : ℤ) : ℝ), ((2 : ℤ) : ℝ)) (5/2, 2) =
        Real.exp (-(1/20)) := by
  unfold calculateGoalDistanceScore
  constructor
  · rw [distR_eval (by norm_num : (0:ℝ) ≤ 1/2) (by push_cast; ring_nf)]
    norm_num
  · rw [distR_eval (by norm_num : (0:ℝ) ≤ 1/2) (by push_cast; ring_nf)]
    norm_num

/-- Total score of the safe candidate `(0,0)`. -/
theorem eval_safe :
    evaluateTrajectory mazeC2 (0, 0) (2, 2) (5/2, 2) 2 =
      3/20 + (1/5) * Real.exp (-(1/20)) := by
  unfold evaluateTrajectory
  simp only
  rw [show (2 : ℝ)/10 = 1/5 by norm_num, rollout_safe_eval]
  rw [show (List.replicate 10 ((2 : ℤ), (2 : ℤ))).getLast? = some ((2 : ℤ), (2 : ℤ)) by decide]
  simp only
  rw [obstacle_safe_eval, dir_safe_eval, dist_ends_eval.1]
  ring

/-- Total score of the colliding candidate `(5,0)`. -/
theorem eval_coll :
    evaluateTrajectory mazeC2 (5, 0) (2, 2) (5/2, 2) 2 =
      7/20 + (1/5) * Real.exp (-(1/20)) := by
  unfold evaluateTrajectory
  simp only
  rw [show (2 : ℝ)/10 = 1/5 by norm_num, rollout_coll_eval]
  rw [show ([((3 : ℤ), (2 : ℤ))]).getLast? = some ((3 : ℤ), (2 : ℤ)) by decide]
  simp only
  rw [obstacle_coll_eval, dir_coll_eval, dist_ends_eval.2]
  ring

/-- The sample list generated from the RNG stream `drawsC2`: the zero current
velocity, the colliding candidate `(5,0)`, and 19 zero-velocity samples. -/
theorem samples_eval :
    generateVelocitySamples (0, 0) drawsC2 =
      ((0 : ℝ), (0 : ℝ)) :: ((5 : ℝ), (0 : ℝ)) :: List.replicate 19 ((0 : ℝ), (0 : ℝ)) := by
  unfold generateVelocitySamples drawsC2
  rw [List.map_cons, List.map_replicate]
  rw [if_neg (by rw [vecNorm_zero]; norm_num)]
  simp only [zero_add]
  norm_num [Real.cos_zero, Real.sin_zero]

/-- The selection loop skips any run of candidates that do not strictly beat
the incumbent score. -/
theorem bestVelFold_const_skip (m : MazeQ) (cp tg : ℝ × ℝ) (v : ℝ × ℝ)
    (acc : (ℝ × ℝ) × ℝ) (h : ¬ evaluateTrajectory m v cp tg 2 > acc.2) :
    ∀ n, bestVelFold m cp tg acc (List.replicate n v) = acc := by
  intro n
  induction n with
  | zero => rw [List.replicate_zero, bestVelFold]
  | succ n ih =>
    rw [List.replicate_succ, bestVelFold]
    rw [if_neg h]
    exact ih

/-- The selection at the C2 scenario: the colliding candidate `(5,0)` beats
the safe candidate `(0,0)` (their exp terms cancel; `0.35 > 0.15`) and wins. -/
theorem findBest_eval :
    findBestLocalVelocity mazeC2 (2, 2) (0, 0) (5/2, 2) 5 2 drawsC2 = (5, 0) := by
  have hE : (0 : ℝ) < Real.exp (-(1/20)) := Real.exp_pos _
  unfold findBestLocalVelocity
  rw [samples_eval]
  rw [bestVelFold]
  simp only
  rw [eval_safe]
  rw [if_pos (by
    have h1 : (0:ℝ) < 2 ^ 128 - 2 ^ 104 := by norm_num
    unfold fltMax
    linarith)]
  rw [bestVelFold]
  simp only
  rw [eval_coll]
  rw [if_pos (by linarith)]
  rw [bestVelFold_const_skip mazeC2 (2, 2) (5/2, 2) (0, 0) _ (by rw [eval_safe]; linarith)]

/-- The score loop returns exactly `0.1` as soon as the trajectory contains an
out-of-bounds or colliding cell (the points before the first unsafe one only
lower the running score, which the `0.1` return discards). -/
theorem obstacleScoreGo_unsafe (m : MazeQ) :
    ∀ (traj : List (ℤ × ℤ)) (s : ℝ),
      (∃ c ∈ traj, ¬ isValidZ m c.1 c.2 ∨ checkCollisionCell m c.1 c.2 (1/2)) →
      obstacleScoreGo m s traj = 1/10
  | [], s, h => absurd h (by simp)
  | c :: rest, s, h => by
    rw [obstacleScoreGo]
    by_cases h1 : ¬ isValidZ m c.1 c.2
    · rw [if_pos h1]
    · rw [if_neg h1]
      by_cases h2 : checkCollisionCell m c.1 c.2 (1/2)
      · rw [if_pos h2]
      · rw [if_neg h2]
        apply obstacleScoreGo_unsafe m rest
        rcases h with ⟨d, hd, hunsafe⟩
        rcases List.mem_cons.mp hd with rfl | hd2
        · rcases hunsafe with hu | hu
          · exact absurd hu h1
          · exact absurd hu h2
        · exact ⟨d, hd2, hunsafe⟩

/-- C2 (corrected): a candidate trajectory that leaves the grid or collides is
not rejected with the minimum score — `calculateObstacleAvoidanceScore` gives
it the fixed value `0.1`, which a collision-free trajectory can undercut (the
safe all-`(2,2)` trajectory in `mazeC2` scores `0 < 0.1`); consequently a
colliding candidate can outscore a safe one and be selected. -/
theorem obstacle_score_of_unsafe_trajectory (m : MazeQ) (traj : List (ℤ × ℤ))
    (h : ∃ c ∈ traj, ¬ isValidZ m c.1 c.2 ∨ checkCollisionCell m c.1 c.2 (1/2)) :
    calculateObstacleAvoidanceScore m traj = 1/10 ∧
    calculateObstacleAvoidanceScore mazeC2 (List.replicate 10 ((2 : ℤ), (2 : ℤ))) = 0 ∧
    (0 : ℝ) < 1/10 := by
  refine ⟨?_, obstacle_safe_eval, by norm_num⟩
  have hne : traj ≠ [] := by
    rcases h with ⟨c, hc, _⟩
    exact List.ne_nil_of_mem hc
  unfold calculateObstacleAvoidanceScore
  rw [if_neg hne]
  exact obstacleScoreGo_unsafe m traj 1 h

/-- Witness for C2's amended theorem at the one-cell colliding trajectory
`[(3,2)]` of `mazeC2`. -/
theorem obstacle_score_of_unsafe_trajectory_witness :
    (∃ c ∈ [((3 : ℤ), (2 : ℤ))],
      ¬ isValidZ mazeC2 c.1 c.2 ∨ checkCollisionCell mazeC2 c.1 c.2 (1/2)) ∧
    calculateObstacleAvoidanceScore mazeC2 [((3 : ℤ), (2 : ℤ))] = 1/10 :=
  ⟨⟨((3 : ℤ), (2 : ℤ)), List.mem_singleton_self _,
      Or.inr (by with_unfolding_all decide)⟩,
    (obstacle_score_of_unsafe_trajectory mazeC2 [((3 : ℤ), (2 : ℤ))]
      ⟨((3 : ℤ), (2 : ℤ)), List.mem_singleton_self _,
        Or.inr (by with_unfolding_all decide)⟩).1⟩

/-- C2 counterexample: in `mazeC2` with the agent at `(2,2)`, target
`(2.5, 2)`, zero current velocity and a legitimate 20-draw RNG stream,
the sample `(0,0)` has a rollout that stays in bounds and collision-free for
the whole horizon, yet `findBestLocalVelocity` returns `(5,0)`, whose rollout
collides at its first cell — a colliding candidate is selected although a
non-colliding candidate exists. -/
theorem dwa_selects_colliding_candidate :
    validDraws drawsC2 5 2 ∧
    ((0 : ℝ), (0 : ℝ)) ∈ generateVelocitySamples (0, 0) drawsC2 ∧
    (∀ c ∈ rollout mazeC2 (0, 0) 2 2 (1/5) 10,
      isValidZ mazeC2 c.1 c.2 ∧ ¬ checkCollisionCell mazeC2 c.1 c.2 (1/2)) ∧
    findBestLocalVelocity mazeC2 (2, 2) (0, 0) (5/2, 2) 5 2 drawsC2 = (5, 0) ∧
    (∃ c ∈ rollout mazeC2 (5, 0) 2 2 (1/5) 10,
      checkCollisionCell mazeC2 c.1 c.2 (1/2)) := by
  refine ⟨?_, List.mem_cons_self _ _, ?_, findBest_eval, ?_⟩
  · intro d hd
    unfold drawsC2 at hd
    rcases List.mem_cons.mp hd with rfl | hd2
    · norm_num
    · rw [List.eq_of_mem_replicate hd2]
      norm_num
  · intro c hc
    rw [rollout_safe_eval] at hc
    rw [List.eq_of_mem_replicate hc]
    exact ⟨mazeC2_cell22.1, mazeC2_cell22.2.1⟩
  · rw [rollout_coll_eval]
    exact ⟨((3 : ℤ), (2 : ℤ)), List.mem_singleton_self _, by with_unfolding_all decide⟩

/-! ## Reset lemmas (claim C9) -/

/-- `atan2` of a point straight above the origin is `π/2`. -/
theorem atan2R_up (y : ℝ) (hy : 0 < y) : atan2R y 0 = Real.pi / 2 := by
  unfold atan2R
  rw [if_neg (by norm_num), if_neg (by norm_num), if_pos hy]

/-- The creation angle of `obC9` is `π/2` and its recorded fields. -/
theorem obC9_fields :
    obC9.mt = MovementType.CIRCULAR ∧ obC9.angle = Real.pi / 2 ∧
    obC9.initialPosition = ((0 : ℝ), (5 : ℝ)) ∧ obC9.center = ((0 : ℝ), (0 : ℝ)) ∧
    obC9.orbitRadius = 5 := by
  unfold obC9 setCircularMovementH mkDynObstacleH
  rw [if_neg (by simp)]
  refine ⟨rfl, ?_, rfl, rfl, rfl⟩
  simp only
  rw [show (5 : ℝ) - 0 = 5 by norm_num, show (0 : ℝ) - 0 = 0 by norm_num]
  exact atan2R_up 5 (by norm_num)

/-- `Obstacle::reset` is idempotent. -/
theorem resetH_idem (o : ObstacleH) : resetH (resetH o) = resetH o := by
  by_cases h : o.mt = MovementType.CIRCULAR
  · simp [resetH, updatePositionH, h]
  · simp [resetH, updatePositionH, h]

/-- C9 counterexample: the circular obstacle `obC9` was created at `(0,5)`
with angle `π/2`, but `reset()` zeroes the angle and moves it to `(5,0)` —
neither the creation position nor the creation angle is restored. -/
theorem circular_reset_not_initial_pose :
    obC9.angle = Real.pi / 2 ∧
    (resetH obC9).position = ((5 : ℝ), (0 : ℝ)) ∧
    (resetH obC9).position ≠ obC9.initialPosition ∧
    (resetH obC9).angle = 0 ∧
    obC9.angle ≠ 0 := by
  obtain ⟨hmt, hang, hini, hc, hr⟩ := obC9_fields
  have hpos : (resetH obC9).position = ((5 : ℝ), (0 : ℝ)) := by
    unfold resetH updatePositionH
    rw [if_pos hmt]
    simp only [hc, hr]
    rw [Real.cos_zero, Real.sin_zero]
    norm_num
  have hra : (resetH obC9).angle = 0 := by
    unfold resetH updatePositionH
    rw [if_pos hmt]
  refine ⟨hang, hpos, ?_, hra, ?_⟩
  · rw [hpos, hini]
    intro hcon
    have := congrArg Prod.fst hcon
    norm_num at this
  · rw [hang]
    have := Real.pi_pos
    positivity

/-- C9 (corrected): `Simulation::reset` is idempotent, and `Obstacle::reset`
restores a LINEAR dynamic obstacle to its initial position, but resets a
CIRCULAR obstacle to angle `0` and position `center + (orbitRadius, 0)` —
not, in general, the pose it had at creation. -/
theorem reset_characterization_idempotent :
    (∀ s : SimR, simResetR (simResetR s) = simResetR s) ∧
    (∀ o : ObstacleH, o.mt = MovementType.LINEAR →
      (resetH o).position = o.initialPosition) ∧
    (∀ o : ObstacleH, o.mt = MovementType.CIRCULAR →
      (resetH o).angle = 0 ∧
      (resetH o).position = (o.center.1 + o.orbitRadius, o.center.2)) := by
  refine ⟨?_, ?_, ?_⟩
  · intro s
    have hmap : ∀ l : List ObstacleH, (l.map resetH).map resetH = l.map resetH := by
      intro l
      induction l with
      | nil => rfl
      | cons a t ih => simp [resetH_idem, ih]
    simp [simResetR, hmap]
  · intro o h
    have hne : ¬ o.mt = MovementType.CIRCULAR := by rw [h]; simp
    unfold resetH
    rw [if_neg hne]
  · intro o h
    unfold resetH updatePositionH
    rw [if_pos h]
    refine ⟨rfl, ?_⟩
    simp only [Real.cos_zero, Real.sin_zero]
    norm_num

/-- Witness for C9 at a linear obstacle, the circular obstacle `obC9`, and a
populated running simulation state. -/
theorem reset_characterization_idempotent_witness :
    simResetR (simResetR simW9) = simResetR simW9 ∧
    (obW9lin.mt = MovementType.LINEAR ∧
      (resetH obW9lin).position = obW9lin.initialPosition) ∧
    (obC9.mt = MovementType.CIRCULAR ∧
      (resetH obC9).angle = 0 ∧
      (resetH obC9).position = (obC9.center.1 + obC9.orbitRadius, obC9.center.2)) :=
  ⟨reset_characterization_idempotent.1 simW9,
    ⟨rfl, reset_characterization_idempotent.2.1 obW9lin rfl⟩,
    ⟨obC9_fields.1,
      reset_characterization_idempotent.2.2 obC9 obC9_fields.1⟩⟩

/-! ## Simulation-tick lemmas (claims C5 and C8) -/

/-- `updateAgentPosition` never changes the simulation phase, the maze data
or the DWA parameters. -/
theorem updateAgentPositionR_frame (s : SimFull) (dt : ℚ) (policy : ℕ → ℕ)
    (fuel : ℕ) (s' : SimFull)
    (h : updateAgentPositionR s dt policy fuel = some s') :
    s'.simSt = s.simSt ∧ s'.maze = s.maze ∧
    s'.maxSpeed = s.maxSpeed ∧ s'.maxRotationSpeed = s.maxRotationSpeed := by
  have hstep : ∀ s1 : SimFull, (agentStep s1 dt).simSt = s1.simSt ∧
      (agentStep s1 dt).maze = s1.maze ∧ (agentStep s1 dt).maxSpeed = s1.maxSpeed ∧
      (agentStep s1 dt).maxRotationSpeed = s1.maxRotationSpeed := by
    intro s1
    simp only [agentStep]
    repeat' split
    all_goals exact ⟨rfl, rfl, rfl, rfl⟩
  simp only [updateAgentPositionR] at h
  repeat' split at h
  all_goals first
    | (injection h with h; subst h; exact ⟨rfl, rfl, rfl, rfl⟩)
    | (injection h with h; subst h; exact hstep _)
    | simp at h

/-- Distance evaluations for the witness state `simW5`. -/
theorem nearestW5 :
    nearestFold ((0 : ℝ), (1 : ℝ)) [((0:ℝ), (0:ℝ)), ((0:ℝ), (1:ℝ)), ((0:ℝ), (2:ℝ))] =
      (1, 0) := by
  have d0 : distR ((0:ℝ), (1:ℝ)) ((0:ℝ), (0:ℝ)) = 1 := distR_eval (by norm_num) (by norm_num)
  have d1 : distR ((0:ℝ), (1:ℝ)) ((0:ℝ), (1:ℝ)) = 0 := distR_eval le_rfl (by norm_num)
  have d2 : distR ((0:ℝ), (1:ℝ)) ((0:ℝ), (2:ℝ)) = 1 := distR_eval (by norm_num) (by norm_num)
  unfold nearestFold
  rw [nearestAux, d0, if_pos (by unfold fltMax; norm_num)]
  rw [nearestAux, d1, if_pos (by norm_num)]
  rw [nearestAux, d2, if_neg (by norm_num)]
  rw [nearestAux]

/-- One agent tick from a state shaped like `simW5`: the agent moves from
`(0,1)` straight to `(0,2)` at speed 2 over `dt = 1/2` and records the point. -/
theorem updateAgent_eval_W5 (s : SimFull)
    (hc : s.current = ((0 : ℝ), (1 : ℝ)))
    (hp : s.pathR = [((0:ℝ), (0:ℝ)), ((0:ℝ), (1:ℝ)), ((0:ℝ), (2:ℝ))])
    (ht : s.trace = []) :
    updateAgentPositionR s (1/2) (fun _ => 0) 0 =
      some { s with velocity := ((0 : ℝ), (2 : ℝ)), current := ((0 : ℝ), (2 : ℝ)),
                    trace := [((0 : ℝ), (2 : ℝ))] } := by
  have hv : vecNorm ((0:ℝ), (1:ℝ)) = 1 := vecNorm_eval (by norm_num) (by norm_num)
  simp only [updateAgentPositionR]
  rw [if_neg (by rw [hp]; simp)]
  congr 1
  unfold agentStep
  rw [hc, hp, ht, nearestW5]
  norm_num [List.getD, List.get?, hv, pushTrace, SimFull.mk.injEq]
  intro hcon
  exact absurd hcon (by simp)

/-- The full `update(0.5)` tick from `simW5` reaches the goal exactly and
finishes. -/
theorem simW5_eval :
    simUpdateR simW5 (1/2) (fun _ => 0) 0 = some simW5res := by
  simp only [simUpdateR]
  rw [if_neg (by simp [simW5])]
  have hupd := updateAgent_eval_W5
    { simW5 with time := simW5.time + ((1/2 : ℚ) : ℝ), maze := mazeUpdateQ simW5.maze (1/2) }
    rfl rfl rfl
  rw [hupd]
  simp only
  rw [if_pos (by
    unfold hasReachedGoalR
    constructor <;> norm_num [simW5, mkMazeQ, mazeUpdateQ])]
  norm_num [simW5res, simW5, mazeUpdateQ, mkMazeQ, SimFull.mk.injEq, MazeQ.mk.injEq]

/-- C5 counterexample: with the agent at `(5,5)` and the goal at `(5, 5.3)`
the distance is `0.3 < 0.5`, yet `hasReachedGoal()` — which compares the
coordinates for EXACT equality, with no threshold — returns false, so the
scenario's "returns true without any movement" fails. -/
theorem reached_goal_false_within_threshold :
    ¬ hasReachedGoalR simC5 ∧
    distR simC5.current ((simC5.maze.goal.x : ℝ), (simC5.maze.goal.y : ℝ)) = 3/10 ∧
    (3/10 : ℝ) < 1/2 := by
  refine ⟨?_, ?_, by norm_num⟩
  · unfold hasReachedGoalR simC5
    intro h
    have h2 := h.2
    norm_num [mkMazeQ] at h2
  · unfold simC5
    simp only
    rw [show ((({ mkMazeQ 10 10 with goal := ⟨5, 53/10⟩ } : MazeQ).goal.x : ℝ),
        (({ mkMazeQ 10 10 with goal := ⟨5, 53/10⟩ } : MazeQ).goal.y : ℝ)) =
        (((5 : ℚ) : ℝ), ((53/10 : ℚ) : ℝ)) from rfl]
    push_cast
    exact distR_eval (by norm_num) (by norm_num)

/-- C5 (corrected): while RUNNING, one `Simulation::update` tick ends in
FINISHED exactly when the post-move agent position equals the goal EXACTLY
(coordinate equality, not a 0.5-unit threshold — see the counterexample for
the scenario the threshold reading predicts wrongly). -/
theorem reached_goal_exact_equality_transition (s : SimFull) (dt : ℚ)
    (policy : ℕ → ℕ) (fuel : ℕ) (s2 : SimFull)
    (hrun : s.simSt = SimulationState.RUNNING)
    (hupd : simUpdateR s dt policy fuel = some s2) :
    s2.simSt = SimulationState.FINISHED ↔ hasReachedGoalR s2 := by
  unfold simUpdateR at hupd
  rw [hrun] at hupd
  rw [if_neg (by simp)] at hupd
  rcases hA : updateAgentPositionR
      { s with
        simSt := SimulationState.RUNNING, time := s.time + (dt : ℝ),
        maze := mazeUpdateQ s.maze dt }
      dt policy fuel with _ | s3
  · simp only [hA] at hupd
    exact absurd hupd (by simp)
  · simp only [hA] at hupd
    by_cases hr : hasReachedGoalR s3
    · rw [if_pos hr] at hupd
      injection hupd with hupd
      subst hupd
      constructor
      · intro _
        exact hr
      · intro _
        rfl
    · rw [if_neg hr] at hupd
      injection hupd with hupd
      subst hupd
      have hfr := updateAgentPositionR_frame _ dt policy fuel s3 hA
      constructor
      · intro hfin
        rw [hfr.1] at hfin
        exact absurd hfin (by simp)
      · intro hr2
        exact absurd hr2 hr

/-- Witness for C5's amended theorem: the tick `simW5 → simW5res` lands the
agent exactly on the goal and the state is FINISHED. -/
theorem reached_goal_exact_equality_transition_witness :
    simW5.simSt = SimulationState.RUNNING ∧
    (simW5res.simSt = SimulationState.FINISHED ↔ hasReachedGoalR simW5res) :=
  ⟨rfl, reached_goal_exact_equality_transition simW5 (1/2) (fun _ => 0) 0 simW5res
    rfl simW5_eval⟩

/-! ## DWA membership and norm bounds (claim C8) -/

/-- The selection fold returns either the incumbent or a list member. -/
theorem bestVelFold_mem (m : MazeQ) (cp tg : ℝ × ℝ) :
    ∀ (l : List (ℝ × ℝ)) (acc : (ℝ × ℝ) × ℝ),
      (bestVelFold m cp tg acc l).1 = acc.1 ∨ (bestVelFold m cp tg acc l).1 ∈ l
  | [], acc => by
    rw [bestVelFold]
    exact Or.inl rfl
  | v :: rest, acc => by
    rw [bestVelFold]
    by_cases h : evaluateTrajectory m v cp tg 2 > acc.2
    · rw [if_pos h]
      rcases bestVelFold_mem m cp tg rest (v, evaluateTrajectory m v cp tg 2) with h2 | h2
      · exact Or.inr (by rw [h2]; exact List.mem_cons_self v rest)
      · exact Or.inr (List.mem_cons_of_mem v h2)
    · rw [if_neg h]
      rcases bestVelFold_mem m cp tg rest acc with h2 | h2
      · exact Or.inl h2
      · exact Or.inr (List.mem_cons_of_mem v h2)

/-- `findBestLocalVelocity` always returns one of the generated samples. -/
theorem findBest_mem (m : MazeQ) (cp cv tg : ℝ × ℝ) (ms mr : ℝ)
    (draws : List (ℝ × ℝ)) :
    findBestLocalVelocity m cp cv tg ms mr draws ∈
      generateVelocitySamples cv draws := by
  unfold findBestLocalVelocity
  rcases bestVelFold_mem m cp tg (generateVelocitySamples cv draws) (cv, -fltMax)
      with h | h
  · rw [h]
    exact List.mem_cons_self _ _
  · exact h

/-- The norm of a polar-form vector is the absolute magnitude. -/
theorem vecNorm_polar (a t : ℝ) :
    vecNorm (a * Real.cos t, a * Real.sin t) = |a| := by
  show Real.sqrt ((a * Real.cos t) ^ 2 + (a * Real.sin t) ^ 2) = |a|
  rw [show (a * Real.cos t) ^ 2 + (a * Real.sin t) ^ 2 = a ^ 2 by
    rw [mul_pow, mul_pow, ← mul_add, Real.cos_sq_add_sin_sq, mul_one]]
  exact Real.sqrt_sq_eq_abs a

/-- Every generated sample has norm at most `max ‖currentVel‖ maxSpeed` when
the draws come from the sampling distributions. -/
theorem sample_norm_le (cv : ℝ × ℝ) (draws : List (ℝ × ℝ)) (ms mr : ℝ)
    (hv : validDraws draws ms mr) (v : ℝ × ℝ)
    (hm : v ∈ generateVelocitySamples cv draws) :
    vecNorm v ≤ max (vecNorm cv) ms := by
  unfold generateVelocitySamples at hm
  rcases List.mem_cons.mp hm with rfl | hm2
  · exact le_max_left _ _
  · rcases List.mem_map.mp hm2 with ⟨d, hd, rfl⟩
    have h1 := hv d hd
    show vecNorm
        (d.1 * Real.cos ((if vecNorm cv > 1/1000 then atan2R cv.2 cv.1 else 0) + d.2),
         d.1 * Real.sin ((if vecNorm cv > 1/1000 then atan2R cv.2 cv.1 else 0) + d.2)) ≤
      max (vecNorm cv) ms
    rw [vecNorm_polar, abs_of_nonneg h1.1]
    exact le_max_of_le_right h1.2.1

/-- Nearest-point lookup for the C8 state: the agent at `(0, 0.5)` is
`0.5` from the first waypoint and no closer to any other. -/
theorem nearestW8 :
    nearestFold ((0 : ℝ), (1/2 : ℝ))
      [((0:ℝ), (0:ℝ)), ((0:ℝ), (1:ℝ)), ((0:ℝ), (2:ℝ))] = (0, 1/2) := by
  have d0 : distR ((0:ℝ), (1/2:ℝ)) ((0:ℝ), (0:ℝ)) = 1/2 :=
    distR_eval (by norm_num) (by norm_num)
  have d1 : distR ((0:ℝ), (1/2:ℝ)) ((0:ℝ), (1:ℝ)) = 1/2 :=
    distR_eval (by norm_num) (by norm_num)
  have d2 : distR ((0:ℝ), (1/2:ℝ)) ((0:ℝ), (2:ℝ)) = 3/2 :=
    distR_eval (by norm_num) (by norm_num)
  unfold nearestFold
  rw [nearestAux, d0, if_pos (by unfold fltMax; norm_num)]
  rw [nearestAux, d1, if_neg (by norm_num)]
  rw [nearestAux, d2, if_neg (by norm_num)]
  rw [nearestAux]

/-- One agent tick from `simW8`: velocity `(0,2)` of norm `2`, integration by
`velocity * dt`. -/
theorem updateAgent_eval_W8 :
    updateAgentPositionR simW8 (1/4) (fun _ => 0) 0 =
      some { simW8 with velocity := ((0 : ℝ), (2 : ℝ)), current := ((0 : ℝ), (1 : ℝ)),
                        trace := [((0 : ℝ), (1 : ℝ))] } := by
  have hv : vecNorm ((0:ℝ), (1/2:ℝ)) = 1/2 := vecNorm_eval (by norm_num) (by norm_num)
  have hc : simW8.current = ((0 : ℝ), (1/2 : ℝ)) := rfl
  have hp : simW8.pathR = [((0:ℝ), (0:ℝ)), ((0:ℝ), (1:ℝ)), ((0:ℝ), (2:ℝ))] := rfl
  have ht : simW8.trace = ([] : List (ℝ × ℝ)) := rfl
  simp only [updateAgentPositionR]
  rw [if_neg (by rw [hp]; simp)]
  congr 1
  unfold agentStep
  rw [hc, hp, ht, nearestW8]
  norm_num [List.getD, List.get?, hv, pushTrace, SimFull.mk.injEq]
  intro hcon
  exact absurd hcon (by simp)

/-- C8 counterexample: on the tick from `simW8` the agent's velocity is set
to `(0,2)` — magnitude exactly `2` — although the DWA parameter `maxSpeed` is
`1` and the current velocity is zero, so NO admissible RNG stream can make
`findBestLocalVelocity` (aimed at the next waypoint, as the claim says)
return that velocity: the tick's velocity is not produced by the local
planner. -/
theorem agent_velocity_not_from_dwa :
    (updateAgentPositionR simW8 (1/4) (fun _ => 0) 0 =
      some { simW8 with velocity := ((0 : ℝ), (2 : ℝ)), current := ((0 : ℝ), (1 : ℝ)),
                        trace := [((0 : ℝ), (1 : ℝ))] }) ∧
    vecNorm ((0 : ℝ), (2 : ℝ)) = 2 ∧
    simW8.maxSpeed = 1 ∧
    nextWaypoint simW8 = ((0 : ℝ), (1 : ℝ)) ∧
    ¬ (∃ draws, validDraws draws simW8.maxSpeed simW8.maxRotationSpeed ∧
        findBestLocalVelocity simW8.maze simW8.current simW8.velocity
          (nextWaypoint simW8) simW8.maxSpeed simW8.maxRotationSpeed draws =
          ((0 : ℝ), (2 : ℝ))) := by
  refine ⟨updateAgent_eval_W8, vecNorm_eval (by norm_num) (by norm_num), rfl, ?_, ?_⟩
  · unfold nextWaypoint
    rw [show simW8.current = ((0 : ℝ), (1/2 : ℝ)) from rfl,
      show simW8.pathR = [((0:ℝ), (0:ℝ)), ((0:ℝ), (1:ℝ)), ((0:ℝ), (2:ℝ))] from rfl,
      nearestW8]
    norm_num [List.getD, List.get?]
  · rintro ⟨draws, hvd, heq⟩
    have hmem := findBest_mem simW8.maze simW8.current simW8.velocity
      (nextWaypoint simW8) simW8.maxSpeed simW8.maxRotationSpeed draws
    rw [heq] at hmem
    have hle := sample_norm_le simW8.velocity draws simW8.maxSpeed
      simW8.maxRotationSpeed hvd _ hmem
    rw [vecNorm_eval (by norm_num) (by norm_num : (0:ℝ)^2 + 2^2 = 2^2)] at hle
    rw [show simW8.velocity = ((0:ℝ), (0:ℝ)) from rfl, vecNorm_zero] at hle
    rw [show simW8.maxSpeed = (1:ℝ) from rfl] at hle
    norm_num at hle

/-- C8 (corrected): on a tick with a non-empty path, away from the goal and
the next waypoint, the agent's velocity is the CONSTANT-speed-2 vector toward
the next unreached waypoint — `findBestLocalVelocity` (the DWA planner) is
not consulted — the position is integrated by `velocity * dt`, and the new
position is appended to the trace per the `> 0.01` rule (`pushTrace`). -/
theorem agent_tick_constant_speed_update (s : SimFull) (dt : ℚ)
    (policy : ℕ → ℕ) (fuel : ℕ)
    (hpath : s.pathR ≠ [])
    (hnear : ¬ ((nearestFold s.current s.pathR).1 ≥ s.pathR.length - 1 ∧
      (nearestFold s.current s.pathR).2 < 1/10))
    (hfar : ¬ vecNorm (towardNext s) < 1/10) :
    updateAgentPositionR s dt policy fuel =
      some { s with
        velocity := (2 * ((towardNext s).1 / vecNorm (towardNext s)),
                     2 * ((towardNext s).2 / vecNorm (towardNext s))),
        current := (s.current.1 + 2 * ((towardNext s).1 / vecNorm (towardNext s)) * (dt : ℝ),
                    s.current.2 + 2 * ((towardNext s).2 / vecNorm (towardNext s)) * (dt : ℝ)),
        trace := pushTrace s.trace
          (s.current.1 + 2 * ((towardNext s).1 / vecNorm (towardNext s)) * (dt : ℝ),
           s.current.2 + 2 * ((towardNext s).2 / vecNorm (towardNext s)) * (dt : ℝ)) } ∧
    vecNorm (2 * ((towardNext s).1 / vecNorm (towardNext s)),
             2 * ((towardNext s).2 / vecNorm (towardNext s))) = 2 := by
  have hpos : (0 : ℝ) < vecNorm (towardNext s) := by
    by_contra hle
    push_neg at hle
    exact hfar (lt_of_le_of_lt hle (by norm_num))
  constructor
  · unfold updateAgentPositionR
    rw [if_neg hpath]
    congr 1
    unfold agentStep
    rw [if_neg hpath, if_neg hnear]
    unfold towardNext nextWaypoint
    rw [if_neg (by unfold towardNext nextWaypoint at hfar; exact hfar)]
  · have hsq : vecNorm (towardNext s) ^ 2 =
        (towardNext s).1 ^ 2 + (towardNext s).2 ^ 2 := by
      unfold vecNorm
      exact Real.sq_sqrt (by positivity)
    apply sqrt_eval (by norm_num)
    have hne : vecNorm (towardNext s) ≠ 0 := ne_of_gt hpos
    field_simp
    nlinarith [hsq]

/-- Witness for C8's amended theorem at the state `simW8`: the computed
velocity has norm exactly 2. -/
theorem agent_tick_constant_speed_update_witness :
    simW8.pathR ≠ [] ∧
    vecNorm (2 * ((towardNext simW8).1 / vecNorm (towardNext simW8)),
             2 * ((towardNext simW8).2 / vecNorm (towardNext simW8))) = 2 :=
  ⟨by simp [simW8], (agent_tick_constant_speed_update simW8 (1/4) (fun _ => 0) 0
    (by simp [simW8])
    (by rw [show simW8.current = ((0 : ℝ), (1/2 : ℝ)) from rfl,
          show simW8.pathR = [((0:ℝ), (0:ℝ)), ((0:ℝ), (1:ℝ)), ((0:ℝ), (2:ℝ))] from rfl,
          nearestW8]
        norm_num)
    (by unfold towardNext nextWaypoint
        rw [show simW8.current = ((0 : ℝ), (1/2 : ℝ)) from rfl,
          show simW8.pathR = [((0:ℝ), (0:ℝ)), ((0:ℝ), (1:ℝ)), ((0:ℝ), (2:ℝ))] from rfl,
          nearestW8]
        norm_num [List.getD, List.get?,
          vecNorm_eval (by norm_num : (0:ℝ) ≤ 1/2) (by norm_num : (0:ℝ)^2 + (1/2)^2 = (1/2)^2)])).2⟩

end PathGlyph
